import Mathlib

/-!
Verification development for the Athena test runner (src/index.js).

The program submits a batch of SQL query files to AWS Athena, indexes the
resulting jobs in a shared dictionary keyed by query-execution id, polls the
service on a repeating timer, consolidates each poll response into the
dictionary, and on SIGINT best-effort-cancels outstanding queries and writes
the dictionary values to a JSON results file.

The embedding below models JS objects as association lists whose stored value
is an `Option Job` (a `none` value models a property that is present but
`undefined`), models thrown exceptions with `Except`, and models the external
Athena service as an explicit function argument (the response oracle).
-/

/-- Job status strings used by the program and by the Athena service
(`QUEUED`, `RUNNING`, `SUCCEEDED`, `FAILED`, `CANCELLED`). -/
inductive Status
  | queued
  | running
  | succeeded
  | failed
  | cancelled
  deriving DecidableEq, Repr

/-- One task/job record: the file object produced by `readFiles` with the
fields added by `executeQueries` and by the monitor loop.  Optional fields
model JS properties that may be absent or `undefined`. -/
@[ext]
structure Job where
  name : String
  query : String
  id : Option String := none
  status : Status
  error : Option String := none
  starttime : Option String := none
  endtime : Option String := none
  runtime : Option Nat := none
  scanned : Option Nat := none
  deriving DecidableEq, Repr

/-- A JS object mapping property keys to job values.  A stored value of
`none` models a property that exists but holds `undefined`. -/
abbrev Registry := List (String × Option Job)

/-- The list of property keys of a registry object (`Object.keys`). -/
def regKeys (R : Registry) : List String := R.map Prod.fst

/-- First entry stored under key `k`: `some v` when the property exists
(with `v` its possibly-`undefined` value), `none` when the key is absent. -/
def getEntry : Registry → String → Option (Option Job)
  | [], _ => none
  | e :: t, k => if e.1 = k then some e.2 else getEntry t k

/-- JS property read `R[k]`: yields `none` both when the key is absent and
when the stored value is `undefined`. -/
def getJob (R : Registry) (k : String) : Option Job := (getEntry R k).getD none

/-- JS property write `R[k] = v`: overwrites in place (keeping the key's
position) when the key exists, otherwise appends a new key. -/
def objSet (R : Registry) (k : String) (v : Option Job) : Registry :=
  if (getEntry R k).isSome then
    R.map (fun e => if e.1 = k then (k, v) else e)
  else R ++ [(k, v)]

/-- One input query file (`readFiles` output): a name and the query text. -/
structure QFile where
  name : String
  query : String
  deriving DecidableEq, Repr

/-- `executeQueries` (src/index.js:98-117): one `startQueryExecution` per
file.  On an error the file object gets `status = "FAILED"` and the error
message, and no id; on success it gets the returned `QueryExecutionId` and
`status = "QUEUED"`.  The per-file service outcomes are supplied as a
parallel list (`.ok qid` for a successful submission). -/
def executeQueries (files : List QFile) (outcomes : List (Except String String)) : List Job :=
  List.zipWith (fun f o =>
    match o with
    | .error e => { name := f.name, query := f.query, status := Status.failed, error := some e }
    | .ok qid => { name := f.name, query := f.query, id := some qid, status := Status.queued })
    files outcomes

/-- JS string coercion of `task.id` when used as an object key in
`indexTasks`: a missing id (`undefined`) becomes the property key
`"undefined"`. -/
def jsKey : Option String → String
  | some s => s
  | none => "undefined"

/-- `indexTasks` (src/index.js:124-130): builds the registry by running
`idx[task.id] = task` over the task list in order. -/
def indexTasks (tasks : List Job) : Registry :=
  tasks.foldl (fun idx t => objSet idx (jsKey t.id) (some t)) []

/-! ### Counting lemmas for `indexTasks` -/

/-- The registry key a submission outcome ends up under. -/
def keyOf : Except String String → String
  | .ok i => i
  | .error _ => "undefined"

/-- The identifiers of the successful submissions, in order. -/
def okIds (outs : List (Except String String)) : List String :=
  outs.filterMap (fun o => match o with | .ok i => some i | .error _ => none)

/-- How many submissions failed. -/
def failCount (outs : List (Except String String)) : Nat :=
  (outs.filter (fun o => match o with | .error _ => true | .ok _ => false)).length

/-- Number of keys in `ks` that are new relative to `seen`, counting each
distinct new key once (the key set grows as keys are first seen). -/
def newCount : List String → List String → Nat
  | [], _ => 0
  | k :: t, seen => if k ∈ seen then newCount t seen else 1 + newCount t (seen ++ [k])

theorem getEntry_isSome_iff (R : Registry) (k : String) :
    (getEntry R k).isSome = true ↔ k ∈ regKeys R := by
  induction R with
  | nil => simp [getEntry, regKeys]
  | cons e t ih =>
    by_cases h : e.1 = k
    · simp [getEntry, regKeys, h]
    · simp [getEntry, regKeys, h, ih, Ne.symm h]

theorem regKeys_objSet (R : Registry) (k : String) (v : Option Job) :
    regKeys (objSet R k v) = if k ∈ regKeys R then regKeys R else regKeys R ++ [k] := by
  by_cases h : k ∈ regKeys R
  · have hs : (getEntry R k).isSome = true := (getEntry_isSome_iff R k).mpr h
    simp only [objSet, hs, if_pos h, if_true]
    simp only [regKeys, List.map_map]
    apply List.map_congr_left
    intro e _
    by_cases he : e.1 = k
    · simp [he, Function.comp]
    · simp [he, Function.comp]
  · have hs : ¬ (getEntry R k).isSome = true := by
      intro hc; exact h ((getEntry_isSome_iff R k).mp hc)
    simp only [objSet, if_neg h]
    rw [if_neg hs]
    simp [regKeys]

theorem length_objSet (R : Registry) (k : String) (v : Option Job) :
    (objSet R k v).length = if k ∈ regKeys R then R.length else R.length + 1 := by
  have h := regKeys_objSet R k v
  have h1 : (objSet R k v).length = (regKeys (objSet R k v)).length := by
    simp [regKeys]
  have h2 : R.length = (regKeys R).length := by simp [regKeys]
  rw [h1, h, h2]
  by_cases hk : k ∈ regKeys R <;> simp [hk]

theorem length_indexFold (tasks : List Job) :
    ∀ R : Registry,
      (tasks.foldl (fun idx t => objSet idx (jsKey t.id) (some t)) R).length
        = R.length + newCount (tasks.map (fun t => jsKey t.id)) (regKeys R) := by
  induction tasks with
  | nil => intro R; simp [newCount]
  | cons t ts ih =>
    intro R
    simp only [List.foldl_cons, List.map_cons]
    by_cases hk : jsKey t.id ∈ regKeys R
    · rw [ih, regKeys_objSet, if_pos hk, length_objSet, if_pos hk]
      simp [newCount, hk]
    · rw [ih, regKeys_objSet, if_neg hk, length_objSet, if_neg hk]
      simp only [newCount, hk, if_neg, ite_false]
      omega

theorem length_indexTasks (tasks : List Job) :
    (indexTasks tasks).length = newCount (tasks.map (fun t => jsKey t.id)) [] := by
  simpa [regKeys] using length_indexFold tasks []

theorem map_jsKey_executeQueries :
    ∀ (files : List QFile) (outs : List (Except String String)),
      files.length = outs.length →
      (executeQueries files outs).map (fun t => jsKey t.id) = outs.map keyOf := by
  intro files
  induction files with
  | nil =>
    intro outs h
    cases outs with
    | nil => simp [executeQueries]
    | cons o t => simp at h
  | cons f fs ih =>
    intro outs h
    cases outs with
    | nil => simp at h
    | cons o os =>
      simp only [List.length_cons, Nat.succ.injEq] at h
      cases o with
      | error e => simp [executeQueries, List.zipWith, keyOf, jsKey, ← ih os h, executeQueries]
      | ok i => simp [executeQueries, List.zipWith, keyOf, jsKey, ← ih os h, executeQueries]

theorem newCount_outs :
    ∀ (outs : List (Except String String)) (seen : List String),
      (okIds outs).Nodup →
      (∀ i ∈ okIds outs, i ∉ seen) →
      "undefined" ∉ okIds outs →
      newCount (outs.map keyOf) seen
        = (okIds outs).length + (if "undefined" ∈ seen then 0 else min (failCount outs) 1) := by
  intro outs
  induction outs with
  | nil => intro seen _ _ _; simp [okIds, newCount, failCount]
  | cons o os ih =>
    intro seen hnd hns hud
    cases o with
    | ok i =>
      have hoki : okIds (Except.ok i :: os) = i :: okIds os := by simp [okIds]
      rw [hoki] at hnd hns hud
      have hiseen : i ∉ seen := hns i (by simp)
      have hind : (okIds os).Nodup := hnd.of_cons
      have hins : i ∉ okIds os := (List.nodup_cons.mp hnd).1
      have hud' : "undefined" ∉ okIds os := fun h => hud (List.mem_cons_of_mem _ h)
      have hne : i ≠ "undefined" := fun h => hud (h ▸ List.mem_cons_self i _)
      have hns' : ∀ j ∈ okIds os, j ∉ seen ++ [i] := by
        intro j hj
        simp only [List.mem_append, List.mem_singleton]
        rintro (h | h)
        · exact hns j (List.mem_cons_of_mem _ hj) h
        · exact hins (h ▸ hj)
      have := ih (seen ++ [i]) hind hns' hud'
      simp only [List.map_cons, keyOf, newCount, hiseen, if_neg, ite_false] at *
      rw [this]
      have hmem : ("undefined" ∈ seen ++ [i]) ↔ ("undefined" ∈ seen) := by
        simp [List.mem_append, Ne.symm hne]
      simp only [hmem, hoki, List.length_cons]
      have hfc : failCount (Except.ok i :: os) = failCount os := by simp [failCount]
      rw [hfc]; omega
    | error e =>
      have hoki : okIds (Except.error e :: os) = okIds os := by simp [okIds]
      rw [hoki] at hnd hns hud
      have hfc : failCount (Except.error e :: os) = failCount os + 1 := by
        simp [failCount]
      by_cases hseen : "undefined" ∈ seen
      · have := ih seen hnd hns hud
        simp only [List.map_cons, keyOf, newCount, hseen, if_pos, ite_true] at *
        rw [this]; simp [hseen, okIds]
      · have hns' : ∀ j ∈ okIds os, j ∉ seen ++ ["undefined"] := by
          intro j hj
          simp only [List.mem_append, List.mem_singleton]
          rintro (h | h)
          · exact hns j hj h
          · exact hud (h ▸ hj)
        have := ih (seen ++ ["undefined"]) hnd hns' hud
        simp only [List.map_cons, keyOf, newCount, hseen, if_neg, ite_false] at *
        rw [this]
        have : "undefined" ∈ seen ++ ["undefined"] := by simp
        simp only [this, if_pos, ite_true, hoki, hfc]
        omega

theorem okIds_length_add_failCount (outs : List (Except String String)) :
    (okIds outs).length + failCount outs = outs.length := by
  induction outs with
  | nil => simp [okIds, failCount]
  | cons o os ih =>
    cases o with
    | ok i => simp [okIds, failCount] at *; omega
    | error e => simp [okIds, failCount] at *; omega

/-- C1 counterexample: two query units are submitted and both submissions
fail; the registry then has a single entry under the shared key
`"undefined"`, not two entries under per-unit synthetic keys. -/
def c1Files : List QFile := [⟨"t1.sql", "select 1"⟩, ⟨"t2.sql", "select 2"⟩]

/-- Both submissions fail with distinct error messages. -/
def c1Outs : List (Except String String) := [Except.error "boom1", Except.error "boom2"]

/-- C1 (counterexample): with N = 2 submitted query units whose submissions
both fail, the registry built by `indexTasks` contains 1 entry, not 2, and
its only key is the string "undefined" rather than a per-unit key such as
the unit's file name. -/
theorem C1_counterexample :
    c1Files.length = 2 ∧
    (indexTasks (executeQueries c1Files c1Outs)).length = 1 ∧
    regKeys (indexTasks (executeQueries c1Files c1Outs)) = ["undefined"] := by
  refine ⟨rfl, ?_, ?_⟩ <;> decide

/-- C1 (amended): after submission the registry contains one entry per
distinct assigned identifier plus a single shared entry under the key
"undefined" when at least one submission failed (all failed units collide on
that one key); consequently it contains exactly N entries exactly when at
most one submission failed (given distinct service identifiers none of which
is the literal string "undefined"). -/
theorem C1_amended (files : List QFile) (outs : List (Except String String))
    (hlen : files.length = outs.length)
    (hnd : (okIds outs).Nodup)
    (hud : "undefined" ∉ okIds outs) :
    (indexTasks (executeQueries files outs)).length
        = (okIds outs).length + min (failCount outs) 1 ∧
    (failCount outs ≤ 1 → (indexTasks (executeQueries files outs)).length = files.length) := by
  have h1 : (indexTasks (executeQueries files outs)).length
      = newCount (outs.map keyOf) [] := by
    rw [length_indexTasks, map_jsKey_executeQueries files outs hlen]
  have h2 := newCount_outs outs [] hnd (by intro i _; simp) hud
  simp only [List.not_mem_nil, if_neg, ite_false] at h2
  constructor
  · rw [h1, h2]
  · intro hfc
    have h3 := okIds_length_add_failCount outs
    rw [h1, h2, hlen]
    omega

/-- C1 amended, witnessed at a concrete input: three units, the middle
submission fails, the registry has exactly 3 entries. -/
theorem C1_amended_witness :
    (indexTasks (executeQueries
        [⟨"a.sql", "q1"⟩, ⟨"b.sql", "q2"⟩, ⟨"c.sql", "q3"⟩]
        [Except.ok "id-a", Except.error "denied", Except.ok "id-c"])).length = 3 :=
  (C1_amended
      [⟨"a.sql", "q1"⟩, ⟨"b.sql", "q2"⟩, ⟨"c.sql", "q3"⟩]
      [Except.ok "id-a", Except.error "denied", Except.ok "id-c"]
      (by decide) (by decide) (by decide)).2 (by decide)

/-! ### The poll-and-consolidate cycle -/

/-- One item of `results.QueryExecutions` from a successful
`batchGetQueryExecution` call: id, reported state, and the optional timing
and bytes-scanned statistics. -/
structure ExecItem where
  qid : String
  state : Status
  submissionDateTime : Option String := none
  completionDateTime : Option String := none
  engineExecutionTimeInMillis : Option Nat := none
  dataScannedInBytes : Option Nat := none
  deriving DecidableEq, Repr

/-- One item of `results.UnprocessedQueryExecutionIds`: an identifier the
service could not report on, with its error message. -/
structure Unproc where
  qid : String
  errorMessage : Option String := none
  deriving DecidableEq, Repr

/-- The payload of a successful `batchGetQueryExecution` call. -/
structure BatchResponse where
  queryExecutions : List ExecItem
  unprocessed : List Unproc
  deriving DecidableEq, Repr

/-- The external Athena batch-poll operation: given the list of requested
ids (JS pushes `task.id` verbatim, so entries may be `undefined`), either a
call-level error or a response payload. -/
abbrev Svc := List (Option String) → Except String BatchResponse

/-- The status test of `getRunningJobs` (src/index.js:142):
`task.status == "QUEUED" || task.status == "RUNNING"`. -/
def isActive (s : Status) : Bool := s = Status.queued ∨ s = Status.running

/-- `getRunningJobs` (src/index.js:137-146): walks `Object.keys(tasks)` and
pushes `task.id` for every task whose status is `"QUEUED"` or `"RUNNING"`.
Reading `.status` of an `undefined` stored value throws (`Except.error`). -/
def getRunningJobs : Registry → Except String (List (Option String))
  | [] => .ok []
  | (_, none) :: _ => .error "TypeError"
  | (_, some t) :: rest =>
    match getRunningJobs rest with
    | .error e => .error e
    | .ok ids => .ok (if isActive t.status then t.id :: ids else ids)

/-- The per-item mutation of the monitor loop (src/index.js:159-168):
overwrite `status` with the reported state and, when the new status is
`"SUCCEEDED"` or `"RUNNING"`, also overwrite the start time, end time,
execution duration and bytes scanned with the reported statistics. -/
def execUpdate (it : ExecItem) (t : Job) : Job :=
  let t1 := { t with status := it.state }
  if t1.status = Status.succeeded ∨ t1.status = Status.running then
    { t1 with starttime := it.submissionDateTime, endtime := it.completionDateTime,
              runtime := it.engineExecutionTimeInMillis, scanned := it.dataScannedInBytes }
  else t1

/-- The per-identifier mutation of `consolidateJobs`' failed loop
(src/index.js:190-193): set `status = "FAILED"` and record the error
message. -/
def failUpdate (u : Unproc) (t : Job) : Job :=
  { t with status := Status.failed, error := u.errorMessage }

/-- In-place JS update of the job stored under key `k` (the object's key set
and key order are unchanged). -/
def updateAt (R : Registry) (k : String) (f : Job → Job) : Registry :=
  R.map (fun e => if e.1 = k then (e.1, e.2.map f) else e)

/-- Whether `R[k]` is a (defined) job, so that reading a field of it cannot
throw. -/
def hasJob (R : Registry) (k : String) : Bool :=
  match getEntry R k with
  | some (some _) => true
  | _ => false

/-- A `forEach` loop that reads the entry keyed by `key x`, throwing
(`Except.error`, which carries the registry as mutated so far — the earlier
in-place writes stay) when that property is absent or `undefined`, and
otherwise overwrites the job in place with `upd x`. -/
def jsLoop {α : Type} (key : α → String) (upd : α → Job → Job) (R : Registry) :
    List α → Except Registry Registry
  | [] => .ok R
  | x :: rest =>
    match getEntry R (key x) with
    | some (some _) => jsLoop key upd (updateAt R (key x) (upd x)) rest
    | _ => .error R

/-- The monitor callback's `results.QueryExecutions.forEach` loop
(src/index.js:159-169): `t = tasks[item.QueryExecutionId]` then the
per-item field overwrites of `execUpdate`. -/
def applyExecLoop (R : Registry) (items : List ExecItem) : Except Registry Registry :=
  jsLoop ExecItem.qid execUpdate R items

/-- The `jobs.failed.forEach` loop of `consolidateJobs`
(src/index.js:190-193): mark each unprocessed id FAILED with its message. -/
def applyFailLoop (R : Registry) (us : List Unproc) : Except Registry Registry :=
  jsLoop Unproc.qid failUpdate R us

/-- The first loop of `consolidateJobs` (src/index.js:185-188):
`jobIndex[k] = jobs.runs[k]` over every key of `jobIndex`; an id missing
from `runs` stores `undefined`. -/
def copyLoop (jobIndex runs : Registry) : Registry :=
  jobIndex.map (fun e => (e.1, getJob runs e.1))

/-- `consolidateJobs` (src/index.js:184-195): copy `runs` over the keys of
`jobIndex`, then mark each unprocessed id FAILED with its message. -/
def consolidateJobs (jobIndex runs : Registry) (failed : List Unproc) : Except Registry Registry :=
  applyFailLoop (copyLoop jobIndex runs) failed

/-- The result of one `monitor` call (src/index.js:153-177): `noWork` models
`resolve(undefined)` (reached with no network call when no job is QUEUED or
RUNNING), `polled` models `resolve({runs, failed})` where `runs` is the
in-place-mutated task dictionary, and `err` models a rejection, carrying the
registry as mutated so far. -/
inductive MonitorResult
  | noWork
  | polled (runs : Registry) (failed : List Unproc)
  | err (Rp : Registry)
  deriving Repr

/-- `monitor` (src/index.js:153-177): collect QUEUED/RUNNING ids; when the
list is nonempty call the service once and fold the per-item mutations over
the task dictionary; when it is empty resolve `undefined` without touching
the service. -/
def monitor (R : Registry) (svc : Svc) : MonitorResult :=
  match getRunningJobs R with
  | .error _ => .err R
  | .ok ids =>
    if ids.length > 0 then
      match svc ids with
      | .error _ => .err R
      | .ok results =>
        match applyExecLoop R results.queryExecutions with
        | .error Rp => .err Rp
        | .ok R1 => .polled R1 results.unprocessed
    else .noWork

/-- Outcome of one interval tick of `run` (src/index.js:289-300):
`finish out` is the `finishUp` path (write `out`, `process.exit(0)`),
`next R2` continues with the consolidated registry (and assigns `INDEX`),
`fatal Rp` is the catch path (`process.exit(1)`) with the registry as
mutated at the time of the throw. -/
inductive CycleOutcome
  | finish (out : Registry)
  | next (R2 : Registry)
  | fatal (Rp : Registry)
  deriving DecidableEq, Repr

/-- The process exit code each cycle outcome leads to (`none`: the process
keeps running). -/
def exitCodeOf : CycleOutcome → Option Nat
  | .finish _ => some 0
  | .next _ => none
  | .fatal _ => some 1

/-- One full polling cycle of `run` (src/index.js:289-300): await
`monitor`, call `finishUp` when it resolved `undefined`, otherwise
`consolidateJobs(jobIndex, jobs)` — by then `jobs.runs` is the very same
object as `jobIndex`, so both arguments are the mutated registry. -/
def cycleStep (R : Registry) (svc : Svc) : CycleOutcome :=
  match monitor R svc with
  | .err Rp => .fatal Rp
  | .noWork => .finish R
  | .polled R1 failed =>
    match consolidateJobs R1 R1 failed with
    | .error Rp => .fatal Rp
    | .ok R2 => .next R2

/-- Applying one successful poll output to the registry: the monitor loop's
in-place mutations followed by `consolidateJobs` on the aliased dictionary.
This is the consolidation operation of one cycle, isolated from the service
call. -/
def applyPoll (R : Registry) (resp : BatchResponse) : Except Registry Registry :=
  match applyExecLoop R resp.queryExecutions with
  | .error Rp => .error Rp
  | .ok R1 => consolidateJobs R1 R1 resp.unprocessed

/-- Every stored property value of the registry is a defined job (true of
every registry the program actually builds). -/
def wellFormedB (R : Registry) : Bool := R.all (fun e => e.2.isSome)

/-- Every job in the registry has a terminal status (not QUEUED, not
RUNNING). -/
def allTerminalB (R : Registry) : Bool :=
  R.all (fun e =>
    match e.2 with
    | some t => !(isActive t.status)
    | none => true)

/-- The list `getRunningJobs` produces on a well-formed registry: `task.id`
of each QUEUED/RUNNING job, in key order. -/
def runningIds (R : Registry) : List (Option String) :=
  R.foldr (fun e acc =>
    match e.2 with
    | some t => if isActive t.status then t.id :: acc else acc
    | none => acc) []

theorem getRunningJobs_eq (R : Registry) (h : wellFormedB R = true) :
    getRunningJobs R = .ok (runningIds R) := by
  induction R with
  | nil => rfl
  | cons e t ih =>
    simp only [wellFormedB, List.all_cons, Bool.and_eq_true] at h
    obtain ⟨he, ht⟩ := h
    obtain ⟨j, hj⟩ := Option.isSome_iff_exists.mp he
    rw [show e = (e.1, some j) by rw [← hj]]
    simp only [getRunningJobs, ih ht, runningIds, List.foldr_cons]

theorem runningIds_nil_iff (R : Registry) :
    runningIds R = [] ↔ allTerminalB R = true := by
  induction R with
  | nil => simp [runningIds, allTerminalB]
  | cons e t ih =>
    cases hv : e.2 with
    | none => simpa [runningIds, allTerminalB, hv] using ih
    | some j =>
      cases hs : isActive j.status with
      | true => simp [runningIds, allTerminalB, hv, hs]
      | false => simpa [runningIds, allTerminalB, hv, hs] using ih

theorem monitor_noWork_iff (R : Registry) (svc : Svc) :
    monitor R svc = MonitorResult.noWork ↔ getRunningJobs R = .ok [] := by
  simp only [monitor]
  cases hgr : getRunningJobs R with
  | error e => simp
  | ok ids =>
    cases ids with
    | nil => simp
    | cons a t =>
      simp only [List.length_cons, gt_iff_lt, Nat.succ_pos, if_pos, ite_true]
      cases hsvc : svc (a :: t) with
      | error e => simp
      | ok results =>
        cases hl : applyExecLoop R results.queryExecutions with
        | error Rp => simp [hl]
        | ok R1 => simp [hl]

/-- C2: the cycle driver reaches its terminal phase — `finishUp` with exit
code 0, writing the registry unchanged — exactly when every job's status is
terminal (neither QUEUED nor RUNNING); moreover when every job is terminal
the monitor resolves `undefined` identically for every service oracle,
i.e. without making a network call. -/
theorem C2_termination (R : Registry) (svc : Svc) (hwf : wellFormedB R = true) :
    (∀ out, cycleStep R svc = CycleOutcome.finish out → allTerminalB R = true) ∧
    (allTerminalB R = true →
      ∀ svc' : Svc, cycleStep R svc' = CycleOutcome.finish R ∧
        exitCodeOf (cycleStep R svc') = some 0 ∧
        monitor R svc' = MonitorResult.noWork) := by
  constructor
  · intro out hout
    cases hm : monitor R svc with
    | err Rp => simp [cycleStep, hm] at hout
    | polled R1 failed =>
      simp only [cycleStep, hm] at hout
      cases hc : consolidateJobs R1 R1 failed with
      | error Rp => rw [hc] at hout; exact absurd hout (by simp)
      | ok R2 => rw [hc] at hout; exact absurd hout (by simp)
    | noWork =>
      have h1 : getRunningJobs R = .ok [] := (monitor_noWork_iff R svc).mp hm
      have h2 := getRunningJobs_eq R hwf
      rw [h1] at h2
      have h3 : runningIds R = [] := by
        have := h2.symm
        simpa using this
      exact (runningIds_nil_iff R).mp h3
  · intro hat svc'
    have hids : getRunningJobs R = .ok [] := by
      rw [getRunningJobs_eq R hwf, (runningIds_nil_iff R).mpr hat]
    have hcyc : cycleStep R svc' = CycleOutcome.finish R := by
      simp [cycleStep, monitor, hids]
    refine ⟨hcyc, ?_, ?_⟩
    · rw [hcyc]; rfl
    · exact (monitor_noWork_iff R svc').mpr hids

/-- A concrete all-terminal registry: one SUCCEEDED job and the shared
"undefined" entry holding a FAILED submission. -/
def c2Reg : Registry :=
  [("id-1", some { name := "a.sql", query := "q1", id := some "id-1",
                   status := Status.succeeded }),
   ("undefined", some { name := "b.sql", query := "q2",
                        status := Status.failed, error := some "boom" })]

/-- C2 witness: a registry with one SUCCEEDED and one FAILED job finalizes
with exit code 0 under an arbitrary concrete service oracle. -/
theorem C2_termination_witness :
    cycleStep c2Reg (fun _ => Except.error "network down") = CycleOutcome.finish c2Reg :=
  ((C2_termination c2Reg (fun _ => Except.error "network down") (by decide)).2
    (by decide) (fun _ => Except.error "network down")).1

/-- C7: when at least one job is outstanding and the batched poll call
itself fails, the cycle ends on the fatal path — `process.exit(1)` — with
the registry exactly as it was before the cycle (no field of any job is
touched). -/
theorem C7_poll_call_error (R : Registry) (svc : Svc) (ids : List (Option String)) (e : String)
    (hids : getRunningJobs R = .ok ids) (hne : ids ≠ [])
    (hsvc : svc ids = .error e) :
    cycleStep R svc = CycleOutcome.fatal R ∧
    exitCodeOf (cycleStep R svc) = some 1 := by
  have hlen : ids.length > 0 := by
    cases ids with
    | nil => exact absurd rfl hne
    | cons a t => simp
  have hcyc : cycleStep R svc = CycleOutcome.fatal R := by
    simp [cycleStep, monitor, hids, hlen, hsvc]
  exact ⟨hcyc, by rw [hcyc]; rfl⟩

/-- A concrete registry with a single outstanding (QUEUED) job. -/
def c7Reg : Registry :=
  [("id-1", some { name := "a.sql", query := "q1", id := some "id-1",
                   status := Status.queued })]

/-- C7 witness: one QUEUED job, the batched call errors, the cycle is fatal
and the registry is returned untouched. -/
theorem C7_poll_call_error_witness :
    cycleStep c7Reg (fun _ => Except.error "ECONNRESET") = CycleOutcome.fatal c7Reg :=
  (C7_poll_call_error c7Reg (fun _ => Except.error "ECONNRESET") [some "id-1"] "ECONNRESET"
    rfl (by decide) rfl).1

/-! ### Registry update infrastructure -/

/-- Apply a per-key job transformation to every defined value of the
registry (keys and key order unchanged). -/
def mapJobs (R : Registry) (g : String → Job → Job) : Registry :=
  R.map (fun e => (e.1, e.2.map (g e.1)))

theorem getEntry_mapJobs (R : Registry) (g : String → Job → Job) (k : String) :
    getEntry (mapJobs R g) k = (getEntry R k).map (Option.map (g k)) := by
  induction R with
  | nil => rfl
  | cons e t ih =>
    by_cases h : e.1 = k
    · subst h; simp [mapJobs, getEntry]
    · simp only [mapJobs, List.map_cons, getEntry, h, if_neg, ite_false]
      exact ih

theorem regKeys_mapJobs (R : Registry) (g : String → Job → Job) :
    regKeys (mapJobs R g) = regKeys R := by
  simp [regKeys, mapJobs, List.map_map, Function.comp]

theorem hasJob_mapJobs (R : Registry) (g : String → Job → Job) (k : String) :
    hasJob (mapJobs R g) k = hasJob R k := by
  simp only [hasJob, getEntry_mapJobs]
  cases getEntry R k with
  | none => rfl
  | some v => cases v <;> rfl

theorem mapJobs_mapJobs (R : Registry) (g1 g2 : String → Job → Job) :
    mapJobs (mapJobs R g1) g2 = mapJobs R (fun k t => g2 k (g1 k t)) := by
  simp only [mapJobs, List.map_map]
  apply List.map_congr_left
  intro e _
  simp only [Function.comp]
  cases e.2 <;> rfl

theorem mapJobs_congr (R : Registry) (g1 g2 : String → Job → Job)
    (h : ∀ k t, g1 k t = g2 k t) : mapJobs R g1 = mapJobs R g2 := by
  apply List.map_congr_left
  intro e _
  cases e.2 with
  | none => rfl
  | some t => simp [h]

theorem mapJobs_id (R : Registry) : mapJobs R (fun _ t => t) = R := by
  unfold mapJobs
  conv_rhs => rw [← List.map_id R]
  apply List.map_congr_left
  intro e _
  cases e with
  | mk k v => cases v <;> simp

theorem updateAt_eq_mapJobs (R : Registry) (k : String) (f : Job → Job) :
    updateAt R k f = mapJobs R (fun k1 t => if k1 = k then f t else t) := by
  unfold updateAt mapJobs
  apply List.map_congr_left
  intro e _
  by_cases h : e.1 = k
  · cases e with
    | mk k1 v => simp only at h; subst h; cases v <;> simp
  · cases e with
    | mk k1 v => simp only at h; cases v <;> simp [h]

theorem getEntry_updateAt (R : Registry) (k : String) (f : Job → Job) (k' : String) :
    getEntry (updateAt R k f) k'
      = (getEntry R k').map (Option.map (fun t => if k' = k then f t else t)) := by
  rw [updateAt_eq_mapJobs, getEntry_mapJobs]

theorem getEntry_updateAt_ne (R : Registry) (k : String) (f : Job → Job) (k' : String)
    (h : k' ≠ k) : getEntry (updateAt R k f) k' = getEntry R k' := by
  rw [getEntry_updateAt]
  cases hv : getEntry R k' with
  | none => rfl
  | some v =>
    cases v with
    | none => rfl
    | some t => simp [h]

theorem regKeys_updateAt (R : Registry) (k : String) (f : Job → Job) :
    regKeys (updateAt R k f) = regKeys R := by
  rw [updateAt_eq_mapJobs, regKeys_mapJobs]

theorem hasJob_updateAt (R : Registry) (k : String) (f : Job → Job) (k' : String) :
    hasJob (updateAt R k f) k' = hasJob R k' := by
  rw [updateAt_eq_mapJobs, hasJob_mapJobs]

theorem hasJob_iff (R : Registry) (k : String) :
    hasJob R k = true ↔ ∃ j, getEntry R k = some (some j) := by
  unfold hasJob
  cases h : getEntry R k with
  | none => simp
  | some v => cases v <;> simp

/-- The job-level effect at key `k` of running a `jsLoop` over `xs`: each
item targeting `k`, in order. -/
def keyFold {α : Type} (key : α → String) (upd : α → Job → Job)
    (xs : List α) (k : String) (t : Job) : Job :=
  xs.foldl (fun t x => if key x = k then upd x t else t) t

theorem jsLoop_ok {α : Type} (key : α → String) (upd : α → Job → Job) (xs : List α) :
    ∀ R : Registry, (∀ x ∈ xs, hasJob R (key x) = true) →
      jsLoop key upd R xs = .ok (mapJobs R (keyFold key upd xs)) := by
  induction xs with
  | nil =>
    intro R _
    have : mapJobs R (keyFold key upd []) = R := mapJobs_id R
    simp [jsLoop, this]
  | cons x rest ih =>
    intro R hall
    obtain ⟨j, hj⟩ := (hasJob_iff R (key x)).mp (hall x (by simp))
    have hrest : ∀ y ∈ rest, hasJob (updateAt R (key x) (upd x)) (key y) = true := by
      intro y hy
      rw [hasJob_updateAt]
      exact hall y (by simp [hy])
    have hstep := ih (updateAt R (key x) (upd x)) hrest
    simp only [jsLoop, hj, hstep]
    congr 1
    rw [updateAt_eq_mapJobs, mapJobs_mapJobs]
    apply mapJobs_congr
    intro k t
    show keyFold key upd rest k (if k = key x then upd x t else t)
      = keyFold key upd (x :: rest) k t
    simp only [keyFold, List.foldl_cons]
    by_cases h : key x = k
    · subst h
      simp
    · rw [if_neg (fun hc : k = key x => h hc.symm), if_neg h]

theorem jsLoop_ok_hasJob {α : Type} (key : α → String) (upd : α → Job → Job) (xs : List α) :
    ∀ R R' : Registry, jsLoop key upd R xs = .ok R' →
      ∀ x ∈ xs, hasJob R (key x) = true := by
  induction xs with
  | nil => intro R R' _ x hx; cases hx
  | cons x rest ih =>
    intro R R' h y hy
    unfold jsLoop at h
    cases hge : getEntry R (key x) with
    | none => rw [hge] at h; exact absurd h (by simp)
    | some v =>
      cases v with
      | none => rw [hge] at h; exact absurd h (by simp)
      | some j =>
        rw [hge] at h
        rcases List.mem_cons.mp hy with rfl | hy'
        · rw [hasJob_iff]; exact ⟨j, hge⟩
        · have := ih (updateAt R (key x) (upd x)) R' h y hy'
          rwa [hasJob_updateAt] at this

theorem jsLoop_notMentioned {α : Type} (key : α → String) (upd : α → Job → Job)
    (xs : List α) (k : String) (hk : ∀ x ∈ xs, key x ≠ k) :
    ∀ R R' : Registry,
      (jsLoop key upd R xs = .ok R' ∨ jsLoop key upd R xs = .error R') →
      getEntry R' k = getEntry R k := by
  induction xs with
  | nil =>
    intro R R' h
    rcases h with h | h
    · simp only [jsLoop] at h
      cases h
      rfl
    · exact absurd h (by simp [jsLoop])
  | cons x rest ih =>
    intro R R' h
    have hx : key x ≠ k := hk x (by simp)
    have hrest : ∀ y ∈ rest, key y ≠ k := fun y hy => hk y (by simp [hy])
    rcases h with h | h <;>
    · unfold jsLoop at h
      cases hge : getEntry R (key x) with
      | none =>
        rw [hge] at h
        first
        | (cases h; rfl)
        | exact absurd h (by simp)
      | some v =>
        cases v with
        | none =>
          rw [hge] at h
          first
          | (cases h; rfl)
          | exact absurd h (by simp)
        | some j =>
          rw [hge] at h
          have := ih hrest (updateAt R (key x) (upd x)) R' (by tauto)
          rw [this, getEntry_updateAt_ne]
          intro hc
          exact hx hc.symm

theorem jsLoop_regKeys {α : Type} (key : α → String) (upd : α → Job → Job) (xs : List α) :
    ∀ R R' : Registry,
      (jsLoop key upd R xs = .ok R' ∨ jsLoop key upd R xs = .error R') →
      regKeys R' = regKeys R := by
  induction xs with
  | nil =>
    intro R R' h
    rcases h with h | h
    · simp only [jsLoop] at h; cases h; rfl
    · exact absurd h (by simp [jsLoop])
  | cons x rest ih =>
    intro R R' h
    rcases h with h | h <;>
    · unfold jsLoop at h
      cases hge : getEntry R (key x) with
      | none =>
        rw [hge] at h
        first
        | (cases h; rfl)
        | exact absurd h (by simp)
      | some v =>
        cases v with
        | none =>
          rw [hge] at h
          first
          | (cases h; rfl)
          | exact absurd h (by simp)
        | some j =>
          rw [hge] at h
          have := ih (updateAt R (key x) (upd x)) R' (by tauto)
          rw [this, regKeys_updateAt]

/-! ### The copy loop of `consolidateJobs` on the aliased dictionary -/

theorem getEntry_of_mem_nodup (R : Registry) (hnd : (regKeys R).Nodup) :
    ∀ e ∈ R, getEntry R e.1 = some e.2 := by
  induction R with
  | nil => intro e he; cases he
  | cons a t ih =>
    intro e he
    have hnd1 : (a.1 :: regKeys t).Nodup := by simpa [regKeys] using hnd
    rw [List.nodup_cons] at hnd1
    rcases List.mem_cons.mp he with h | h
    · subst h; simp [getEntry]
    · have hmem : e.1 ∈ regKeys t := List.mem_map_of_mem Prod.fst h
      have hne : a.1 ≠ e.1 := fun hc => hnd1.1 (hc ▸ hmem)
      simp only [getEntry, hne, if_neg, ite_false]
      exact ih hnd1.2 e h

/-- In the program, `consolidateJobs` is always called with `jobs.runs`
being the very same object as `jobIndex`; the copy loop is then the
identity. -/
theorem copyLoop_self (R : Registry) (hnd : (regKeys R).Nodup) : copyLoop R R = R := by
  unfold copyLoop
  conv_rhs => rw [← List.map_id R]
  apply List.map_congr_left
  intro e he
  have h := getEntry_of_mem_nodup R hnd e he
  cases e with
  | mk k v =>
    simp only at h
    simp [getJob, h]

/-! ### Per-job updates are constant field overwrites -/

/-- A job transformation that leaves `name`, `query` and `id` alone and, on
each remaining field, either writes a constant (independent of the input
job) or passes the field through.  Both per-item poll updates have this
shape, which is what makes consolidation idempotent. -/
structure FieldWrite (w : Job → Job) : Prop where
  hname : ∀ t, (w t).name = t.name
  hquery : ∀ t, (w t).query = t.query
  hid : ∀ t, (w t).id = t.id
  hstatus : (∃ c, ∀ t, (w t).status = c) ∨ (∀ t, (w t).status = t.status)
  herror : (∃ c, ∀ t, (w t).error = c) ∨ (∀ t, (w t).error = t.error)
  hstart : (∃ c, ∀ t, (w t).starttime = c) ∨ (∀ t, (w t).starttime = t.starttime)
  hend : (∃ c, ∀ t, (w t).endtime = c) ∨ (∀ t, (w t).endtime = t.endtime)
  hruntime : (∃ c, ∀ t, (w t).runtime = c) ∨ (∀ t, (w t).runtime = t.runtime)
  hscanned : (∃ c, ∀ t, (w t).scanned = c) ∨ (∀ t, (w t).scanned = t.scanned)

theorem fieldWrite_id : FieldWrite (fun t => t) where
  hname _ := rfl
  hquery _ := rfl
  hid _ := rfl
  hstatus := Or.inr fun _ => rfl
  herror := Or.inr fun _ => rfl
  hstart := Or.inr fun _ => rfl
  hend := Or.inr fun _ => rfl
  hruntime := Or.inr fun _ => rfl
  hscanned := Or.inr fun _ => rfl

theorem fwField_comp {α : Type} (p : Job → α) (g1 g2 : Job → Job)
    (h1 : (∃ c, ∀ t, p (g1 t) = c) ∨ (∀ t, p (g1 t) = p t))
    (h2 : (∃ c, ∀ t, p (g2 t) = c) ∨ (∀ t, p (g2 t) = p t)) :
    (∃ c, ∀ t, p (g2 (g1 t)) = c) ∨ (∀ t, p (g2 (g1 t)) = p t) := by
  rcases h2 with ⟨c, hc⟩ | h2
  · exact Or.inl ⟨c, fun t => hc (g1 t)⟩
  · rcases h1 with ⟨c, hc⟩ | h1
    · exact Or.inl ⟨c, fun t => (h2 (g1 t)).trans (hc t)⟩
    · exact Or.inr fun t => (h2 (g1 t)).trans (h1 t)

theorem FieldWrite.comp {w1 w2 : Job → Job} (h1 : FieldWrite w1) (h2 : FieldWrite w2) :
    FieldWrite (fun t => w2 (w1 t)) where
  hname t := (h2.hname (w1 t)).trans (h1.hname t)
  hquery t := (h2.hquery (w1 t)).trans (h1.hquery t)
  hid t := (h2.hid (w1 t)).trans (h1.hid t)
  hstatus := fwField_comp (fun t => t.status) w1 w2 h1.hstatus h2.hstatus
  herror := fwField_comp (fun t => t.error) w1 w2 h1.herror h2.herror
  hstart := fwField_comp (fun t => t.starttime) w1 w2 h1.hstart h2.hstart
  hend := fwField_comp (fun t => t.endtime) w1 w2 h1.hend h2.hend
  hruntime := fwField_comp (fun t => t.runtime) w1 w2 h1.hruntime h2.hruntime
  hscanned := fwField_comp (fun t => t.scanned) w1 w2 h1.hscanned h2.hscanned

theorem fwField_idem {α : Type} (p : Job → α) (w : Job → Job)
    (h : (∃ c, ∀ t, p (w t) = c) ∨ (∀ t, p (w t) = p t)) (t : Job) :
    p (w (w t)) = p (w t) := by
  rcases h with ⟨c, hc⟩ | h
  · rw [hc, hc]
  · exact h (w t)

theorem FieldWrite.idem {w : Job → Job} (h : FieldWrite w) (t : Job) : w (w t) = w t := by
  refine Job.ext ?_ ?_ ?_ ?_ ?_ ?_ ?_ ?_ ?_
  · exact h.hname (w t)
  · exact h.hquery (w t)
  · exact h.hid (w t)
  · exact fwField_idem (fun t => t.status) w h.hstatus t
  · exact fwField_idem (fun t => t.error) w h.herror t
  · exact fwField_idem (fun t => t.starttime) w h.hstart t
  · exact fwField_idem (fun t => t.endtime) w h.hend t
  · exact fwField_idem (fun t => t.runtime) w h.hruntime t
  · exact fwField_idem (fun t => t.scanned) w h.hscanned t

theorem fieldWrite_ite (c : Prop) [Decidable c] (w : Job → Job) (h : FieldWrite w) :
    FieldWrite (fun t => if c then w t else t) := by
  by_cases hc : c
  · have he : (fun t => if c then w t else t) = fun t => w t := by
      funext t; rw [if_pos hc]
    rw [he]; exact h
  · have he : (fun t => if c then w t else t) = fun t => t := by
      funext t; rw [if_neg hc]
    rw [he]; exact fieldWrite_id

theorem execUpdate_eq_pos (it : ExecItem) (t : Job)
    (h : it.state = Status.succeeded ∨ it.state = Status.running) :
    execUpdate it t = { t with
                        status := it.state
                        starttime := it.submissionDateTime
                        endtime := it.completionDateTime
                        runtime := it.engineExecutionTimeInMillis
                        scanned := it.dataScannedInBytes } := by
  unfold execUpdate
  rw [if_pos h]

theorem execUpdate_eq_neg (it : ExecItem) (t : Job)
    (h : ¬(it.state = Status.succeeded ∨ it.state = Status.running)) :
    execUpdate it t = { t with status := it.state } := by
  unfold execUpdate
  rw [if_neg h]

theorem fieldWrite_execUpdate (it : ExecItem) : FieldWrite (execUpdate it) := by
  by_cases h : it.state = Status.succeeded ∨ it.state = Status.running
  · exact {
      hname := fun t => by rw [execUpdate_eq_pos it t h]
      hquery := fun t => by rw [execUpdate_eq_pos it t h]
      hid := fun t => by rw [execUpdate_eq_pos it t h]
      hstatus := Or.inl ⟨it.state, fun t => by rw [execUpdate_eq_pos it t h]⟩
      herror := Or.inr fun t => by rw [execUpdate_eq_pos it t h]
      hstart := Or.inl ⟨it.submissionDateTime, fun t => by rw [execUpdate_eq_pos it t h]⟩
      hend := Or.inl ⟨it.completionDateTime, fun t => by rw [execUpdate_eq_pos it t h]⟩
      hruntime := Or.inl ⟨it.engineExecutionTimeInMillis,
        fun t => by rw [execUpdate_eq_pos it t h]⟩
      hscanned := Or.inl ⟨it.dataScannedInBytes, fun t => by rw [execUpdate_eq_pos it t h]⟩ }
  · exact {
      hname := fun t => by rw [execUpdate_eq_neg it t h]
      hquery := fun t => by rw [execUpdate_eq_neg it t h]
      hid := fun t => by rw [execUpdate_eq_neg it t h]
      hstatus := Or.inl ⟨it.state, fun t => by rw [execUpdate_eq_neg it t h]⟩
      herror := Or.inr fun t => by rw [execUpdate_eq_neg it t h]
      hstart := Or.inr fun t => by rw [execUpdate_eq_neg it t h]
      hend := Or.inr fun t => by rw [execUpdate_eq_neg it t h]
      hruntime := Or.inr fun t => by rw [execUpdate_eq_neg it t h]
      hscanned := Or.inr fun t => by rw [execUpdate_eq_neg it t h] }

theorem fieldWrite_failUpdate (u : Unproc) : FieldWrite (failUpdate u) where
  hname _ := rfl
  hquery _ := rfl
  hid _ := rfl
  hstatus := Or.inl ⟨Status.failed, fun _ => rfl⟩
  herror := Or.inl ⟨u.errorMessage, fun _ => rfl⟩
  hstart := Or.inr fun _ => rfl
  hend := Or.inr fun _ => rfl
  hruntime := Or.inr fun _ => rfl
  hscanned := Or.inr fun _ => rfl

theorem fieldWrite_keyFold {α : Type} (key : α → String) (upd : α → Job → Job)
    (hupd : ∀ x, FieldWrite (upd x)) (xs : List α) (k : String) :
    FieldWrite (keyFold key upd xs k) := by
  induction xs with
  | nil => exact fieldWrite_id
  | cons x rest ih =>
    have hstep : FieldWrite (fun t => if key x = k then upd x t else t) :=
      fieldWrite_ite (key x = k) (upd x) (hupd x)
    show FieldWrite (fun t => keyFold key upd rest k (if key x = k then upd x t else t))
    exact FieldWrite.comp hstep ih

/-- The cumulative per-key job transformation of one whole
poll-and-consolidate cycle: the executions loop followed by the
unprocessed loop. -/
def pollFold (resp : BatchResponse) (k : String) (t : Job) : Job :=
  keyFold Unproc.qid failUpdate resp.unprocessed k
    (keyFold ExecItem.qid execUpdate resp.queryExecutions k t)

theorem fieldWrite_pollFold (resp : BatchResponse) (k : String) :
    FieldWrite (pollFold resp k) := by
  show FieldWrite (fun t => keyFold Unproc.qid failUpdate resp.unprocessed k
    (keyFold ExecItem.qid execUpdate resp.queryExecutions k t))
  exact FieldWrite.comp
    (fieldWrite_keyFold ExecItem.qid execUpdate fieldWrite_execUpdate resp.queryExecutions k)
    (fieldWrite_keyFold Unproc.qid failUpdate fieldWrite_failUpdate resp.unprocessed k)

/-! ### Characterizing a successful poll-and-consolidate -/

theorem applyPoll_eq_of_execLoop (R : Registry) (resp : BatchResponse) (R1 : Registry)
    (h : applyExecLoop R resp.queryExecutions = .ok R1) :
    applyPoll R resp = consolidateJobs R1 R1 resp.unprocessed := by
  unfold applyPoll
  rw [h]

theorem applyPoll_eq_of_execLoop_err (R : Registry) (resp : BatchResponse) (Rp : Registry)
    (h : applyExecLoop R resp.queryExecutions = .error Rp) :
    applyPoll R resp = .error Rp := by
  unfold applyPoll
  rw [h]

theorem applyPoll_ok_of (R : Registry) (resp : BatchResponse)
    (hnd : (regKeys R).Nodup)
    (h1 : ∀ it ∈ resp.queryExecutions, hasJob R it.qid = true)
    (h2 : ∀ u ∈ resp.unprocessed, hasJob R u.qid = true) :
    applyPoll R resp = .ok (mapJobs R (pollFold resp)) := by
  have hexec : applyExecLoop R resp.queryExecutions
      = .ok (mapJobs R (keyFold ExecItem.qid execUpdate resp.queryExecutions)) :=
    jsLoop_ok ExecItem.qid execUpdate resp.queryExecutions R h1
  rw [applyPoll_eq_of_execLoop R resp _ hexec]
  have hnd1 : (regKeys (mapJobs R (keyFold ExecItem.qid execUpdate resp.queryExecutions))).Nodup := by
    rw [regKeys_mapJobs]; exact hnd
  unfold consolidateJobs
  rw [copyLoop_self _ hnd1]
  have h2' : ∀ u ∈ resp.unprocessed,
      hasJob (mapJobs R (keyFold ExecItem.qid execUpdate resp.queryExecutions)) u.qid = true := by
    intro u hu; rw [hasJob_mapJobs]; exact h2 u hu
  have hfail : applyFailLoop (mapJobs R (keyFold ExecItem.qid execUpdate resp.queryExecutions))
      resp.unprocessed
      = .ok (mapJobs (mapJobs R (keyFold ExecItem.qid execUpdate resp.queryExecutions))
          (keyFold Unproc.qid failUpdate resp.unprocessed)) :=
    jsLoop_ok Unproc.qid failUpdate resp.unprocessed _ h2'
  rw [hfail, mapJobs_mapJobs]
  rfl

theorem applyPoll_ok_char (R : Registry) (resp : BatchResponse) (R' : Registry)
    (hnd : (regKeys R).Nodup) (h : applyPoll R resp = .ok R') :
    R' = mapJobs R (pollFold resp) ∧
    (∀ it ∈ resp.queryExecutions, hasJob R it.qid = true) ∧
    (∀ u ∈ resp.unprocessed, hasJob R u.qid = true) := by
  cases hl : applyExecLoop R resp.queryExecutions with
  | error Rp =>
    rw [applyPoll_eq_of_execLoop_err R resp Rp hl] at h
    exact absurd h (by simp)
  | ok R1 =>
    rw [applyPoll_eq_of_execLoop R resp R1 hl] at h
    have h1 : ∀ it ∈ resp.queryExecutions, hasJob R it.qid = true :=
      jsLoop_ok_hasJob ExecItem.qid execUpdate resp.queryExecutions R R1 hl
    have hexec : applyExecLoop R resp.queryExecutions
        = .ok (mapJobs R (keyFold ExecItem.qid execUpdate resp.queryExecutions)) :=
      jsLoop_ok ExecItem.qid execUpdate resp.queryExecutions R h1
    rw [hexec] at hl
    have hR1 : R1 = mapJobs R (keyFold ExecItem.qid execUpdate resp.queryExecutions) :=
      (Except.ok.inj hl).symm
    subst hR1
    have hnd1 : (regKeys (mapJobs R (keyFold ExecItem.qid execUpdate
        resp.queryExecutions))).Nodup := by
      rw [regKeys_mapJobs]; exact hnd
    unfold consolidateJobs at h
    rw [copyLoop_self _ hnd1] at h
    have h2' : ∀ u ∈ resp.unprocessed,
        hasJob (mapJobs R (keyFold ExecItem.qid execUpdate resp.queryExecutions)) u.qid = true :=
      jsLoop_ok_hasJob Unproc.qid failUpdate resp.unprocessed _ R' h
    have h2 : ∀ u ∈ resp.unprocessed, hasJob R u.qid = true := by
      intro u hu
      have := h2' u hu
      rwa [hasJob_mapJobs] at this
    have hfail : applyFailLoop (mapJobs R (keyFold ExecItem.qid execUpdate
        resp.queryExecutions)) resp.unprocessed
        = .ok (mapJobs (mapJobs R (keyFold ExecItem.qid execUpdate resp.queryExecutions))
            (keyFold Unproc.qid failUpdate resp.unprocessed)) :=
      jsLoop_ok Unproc.qid failUpdate resp.unprocessed _ h2'
    rw [hfail] at h
    refine ⟨?_, h1, h2⟩
    have := (Except.ok.inj h).symm
    rw [this, mapJobs_mapJobs]
    rfl

/-- C4: consolidation is idempotent — if applying a poll output (the
per-identifier payload plus the unprocessed list) to the registry succeeds
and yields `R'`, then applying the very same output to `R'` succeeds and
yields `R'` again: every field written is an overwrite with a value taken
from the payload, not an accumulation. -/
theorem C4_idempotent (R R' : Registry) (resp : BatchResponse)
    (hnd : (regKeys R).Nodup) (h : applyPoll R resp = .ok R') :
    applyPoll R' resp = .ok R' := by
  obtain ⟨hchar, h1, h2⟩ := applyPoll_ok_char R resp R' hnd h
  have hnd' : (regKeys R').Nodup := by rw [hchar, regKeys_mapJobs]; exact hnd
  have h1' : ∀ it ∈ resp.queryExecutions, hasJob R' it.qid = true := by
    intro it hit; rw [hchar, hasJob_mapJobs]; exact h1 it hit
  have h2' : ∀ u ∈ resp.unprocessed, hasJob R' u.qid = true := by
    intro u hu; rw [hchar, hasJob_mapJobs]; exact h2 u hu
  rw [applyPoll_ok_of R' resp hnd' h1' h2']
  congr 1
  conv_lhs => rw [hchar, mapJobs_mapJobs]
  rw [hchar]
  apply mapJobs_congr
  intro k t
  exact FieldWrite.idem (fieldWrite_pollFold resp k) t

/-- A concrete registry with one QUEUED job, for the C4 witness. -/
def c4Reg : Registry :=
  [("id-1", some { name := "a.sql", query := "q1", id := some "id-1",
                   status := Status.queued })]

/-- A concrete poll output reporting that job SUCCEEDED with statistics. -/
def c4Resp : BatchResponse :=
  { queryExecutions := [{ qid := "id-1", state := Status.succeeded,
                          submissionDateTime := some "2019-02-01T10:00:00Z",
                          completionDateTime := some "2019-02-01T10:00:01Z",
                          engineExecutionTimeInMillis := some 1200,
                          dataScannedInBytes := some 2048 }],
    unprocessed := [] }

/-- The registry after consolidating `c4Resp` into `c4Reg`. -/
def c4Reg' : Registry :=
  [("id-1", some { name := "a.sql", query := "q1", id := some "id-1",
                   status := Status.succeeded,
                   starttime := some "2019-02-01T10:00:00Z",
                   endtime := some "2019-02-01T10:00:01Z",
                   runtime := some 1200, scanned := some 2048 })]

/-- C4 witness: applying the same concrete poll output a second time leaves
the consolidated registry unchanged. -/
theorem C4_idempotent_witness : applyPoll c4Reg' c4Resp = .ok c4Reg' :=
  C4_idempotent c4Reg c4Reg' c4Resp (by decide) rfl

/-! ### The per-key effect of one cycle -/

theorem keyFold_of_not_mem {α : Type} (key : α → String) (upd : α → Job → Job)
    (xs : List α) (k : String) (h : ∀ x ∈ xs, key x ≠ k) (t : Job) :
    keyFold key upd xs k t = t := by
  induction xs generalizing t with
  | nil => rfl
  | cons x rest ih =>
    have hx : key x ≠ k := h x (by simp)
    show keyFold key upd rest k (if key x = k then upd x t else t) = t
    rw [if_neg hx]
    exact ih (fun y hy => h y (List.mem_cons_of_mem x hy)) t

theorem keyFold_singleton {α : Type} (key : α → String) (upd : α → Job → Job)
    (xs : List α) (hnd : (xs.map key).Nodup) (x : α) (hx : x ∈ xs) (t : Job) :
    keyFold key upd xs (key x) t = upd x t := by
  induction xs generalizing t with
  | nil => cases hx
  | cons a rest ih =>
    have hnd1 : key a ∉ rest.map key ∧ (rest.map key).Nodup := by
      simpa using hnd
    rcases List.mem_cons.mp hx with rfl | h
    · show keyFold key upd rest (key x) (if key x = key x then upd x t else t) = upd x t
      rw [if_pos rfl]
      refine keyFold_of_not_mem key upd rest (key x) ?_ (upd x t)
      intro y hy hc
      exact hnd1.1 (hc ▸ List.mem_map_of_mem key hy)
    · have hne : key a ≠ key x := by
        intro hc
        exact hnd1.1 (hc ▸ List.mem_map_of_mem key h)
      show keyFold key upd rest (key x) (if key a = key x then upd a t else t) = upd x t
      rw [if_neg hne]
      exact ih hnd1.2 h t

/-- C6: the effect of one successful poll consolidation, job by job — a job
whose identifier is in the per-identifier payload (and not unprocessed) has
its status overwritten with the reported state, its timing and bytes-scanned
fields overwritten with the reported statistics exactly when the new status
is SUCCEEDED or RUNNING (and kept otherwise), and all other fields kept; a
job whose identifier is in the unprocessed list ends FAILED with the
reported error message; a job mentioned in neither output is left entirely
unchanged. -/
theorem C6_consolidation (R R' : Registry) (resp : BatchResponse)
    (hnd : (regKeys R).Nodup)
    (hndE : (resp.queryExecutions.map ExecItem.qid).Nodup)
    (hndU : (resp.unprocessed.map Unproc.qid).Nodup)
    (hdisj : ∀ it ∈ resp.queryExecutions, ∀ u ∈ resp.unprocessed, it.qid ≠ u.qid)
    (h : applyPoll R resp = .ok R') :
    (∀ it ∈ resp.queryExecutions, ∀ j : Job, getEntry R it.qid = some (some j) →
      ∃ j' : Job, getEntry R' it.qid = some (some j') ∧
        j'.status = it.state ∧
        ((it.state = Status.succeeded ∨ it.state = Status.running) →
          j'.starttime = it.submissionDateTime ∧ j'.endtime = it.completionDateTime ∧
          j'.runtime = it.engineExecutionTimeInMillis ∧ j'.scanned = it.dataScannedInBytes) ∧
        (¬(it.state = Status.succeeded ∨ it.state = Status.running) →
          j'.starttime = j.starttime ∧ j'.endtime = j.endtime ∧
          j'.runtime = j.runtime ∧ j'.scanned = j.scanned) ∧
        j'.name = j.name ∧ j'.query = j.query ∧ j'.id = j.id ∧ j'.error = j.error) ∧
    (∀ u ∈ resp.unprocessed, ∀ j : Job, getEntry R u.qid = some (some j) →
      ∃ j' : Job, getEntry R' u.qid = some (some j') ∧
        j'.status = Status.failed ∧ j'.error = u.errorMessage) ∧
    (∀ k : String, (∀ it ∈ resp.queryExecutions, it.qid ≠ k) →
        (∀ u ∈ resp.unprocessed, u.qid ≠ k) →
      getEntry R' k = getEntry R k) := by
  obtain ⟨hchar, h1, h2⟩ := applyPoll_ok_char R resp R' hnd h
  have hget : ∀ k, getEntry R' k = (getEntry R k).map (Option.map (pollFold resp k)) := by
    intro k; rw [hchar, getEntry_mapJobs]
  refine ⟨?_, ?_, ?_⟩
  · intro it hit j hj
    have hexec1 : keyFold ExecItem.qid execUpdate resp.queryExecutions it.qid j
        = execUpdate it j :=
      keyFold_singleton ExecItem.qid execUpdate resp.queryExecutions hndE it hit j
    have hpoll1 : pollFold resp it.qid j = execUpdate it j := by
      show keyFold Unproc.qid failUpdate resp.unprocessed it.qid
        (keyFold ExecItem.qid execUpdate resp.queryExecutions it.qid j) = execUpdate it j
      rw [hexec1]
      exact keyFold_of_not_mem Unproc.qid failUpdate resp.unprocessed it.qid
        (fun u hu => Ne.symm (hdisj it hit u hu)) (execUpdate it j)
    refine ⟨execUpdate it j, ?_, ?_, ?_, ?_, ?_, ?_, ?_, ?_⟩
    · rw [hget it.qid, hj]
      simp [hpoll1]
    · by_cases hs : it.state = Status.succeeded ∨ it.state = Status.running
      · rw [execUpdate_eq_pos it j hs]
      · rw [execUpdate_eq_neg it j hs]
    · intro hs
      rw [execUpdate_eq_pos it j hs]
      exact ⟨rfl, rfl, rfl, rfl⟩
    · intro hs
      rw [execUpdate_eq_neg it j hs]
      exact ⟨rfl, rfl, rfl, rfl⟩
    · exact (fieldWrite_execUpdate it).hname j
    · exact (fieldWrite_execUpdate it).hquery j
    · exact (fieldWrite_execUpdate it).hid j
    · by_cases hs : it.state = Status.succeeded ∨ it.state = Status.running
      · rw [execUpdate_eq_pos it j hs]
      · rw [execUpdate_eq_neg it j hs]
  · intro u hu j hj
    have hp : pollFold resp u.qid j = failUpdate u
        (keyFold ExecItem.qid execUpdate resp.queryExecutions u.qid j) :=
      keyFold_singleton Unproc.qid failUpdate resp.unprocessed hndU u hu
        (keyFold ExecItem.qid execUpdate resp.queryExecutions u.qid j)
    refine ⟨pollFold resp u.qid j, ?_, ?_, ?_⟩
    · rw [hget u.qid, hj]
      rfl
    · rw [hp]
      rfl
    · rw [hp]
      rfl
  · intro k hkE hkU
    rw [hget k]
    have hp : ∀ t : Job, pollFold resp k t = t := by
      intro t
      show keyFold Unproc.qid failUpdate resp.unprocessed k
        (keyFold ExecItem.qid execUpdate resp.queryExecutions k t) = t
      rw [keyFold_of_not_mem ExecItem.qid execUpdate resp.queryExecutions k hkE t,
          keyFold_of_not_mem Unproc.qid failUpdate resp.unprocessed k hkU t]
    cases hv : getEntry R k with
    | none => rfl
    | some v =>
      cases v with
      | none => rfl
      | some t => simp [hp t]

/-- Scenario-A-like registry: a failed submission under the shared
"undefined" key plus two QUEUED jobs. -/
def c6Reg : Registry :=
  [("undefined", some { name := "u1.sql", query := "q1", status := Status.failed,
                        error := some "denied" }),
   ("id-2", some { name := "u2.sql", query := "q2", id := some "id-2",
                   status := Status.queued }),
   ("id-3", some { name := "u3.sql", query := "q3", id := some "id-3",
                   status := Status.queued })]

/-- Concrete poll output: unit 2 SUCCEEDED with statistics, unit 3
unprocessed with "internal error". -/
def c6Resp : BatchResponse :=
  { queryExecutions := [{ qid := "id-2", state := Status.succeeded,
                          submissionDateTime := some "t0",
                          completionDateTime := some "t1",
                          engineExecutionTimeInMillis := some 1200,
                          dataScannedInBytes := some 2048 }],
    unprocessed := [{ qid := "id-3", errorMessage := some "internal error" }] }

/-- The registry after consolidating `c6Resp` into `c6Reg`. -/
def c6Reg' : Registry :=
  [("undefined", some { name := "u1.sql", query := "q1", status := Status.failed,
                        error := some "denied" }),
   ("id-2", some { name := "u2.sql", query := "q2", id := some "id-2",
                   status := Status.succeeded, starttime := some "t0",
                   endtime := some "t1", runtime := some 1200, scanned := some 2048 }),
   ("id-3", some { name := "u3.sql", query := "q3", id := some "id-3",
                   status := Status.failed, error := some "internal error" })]

/-- C6 witness: in the concrete scenario, the unprocessed unit 3 ends
FAILED with the reported message. -/
theorem C6_consolidation_witness :
    ∃ j' : Job, getEntry c6Reg' "id-3" = some (some j') ∧
      j'.status = Status.failed ∧ j'.error = some "internal error" :=
  (C6_consolidation c6Reg c6Reg' c6Resp (by decide) (by decide) (by decide) (by decide)
      rfl).2.1
    ⟨"id-3", some "internal error"⟩ (by decide)
    { name := "u3.sql", query := "q3", id := some "id-3", status := Status.queued }
    (by decide)

/-! ### The cycle never rewrites a terminal job (C5) -/

/-- Per-entry id consistency: a defined job's `id` field, when present,
equals its registry key.  Every registry the program builds satisfies this
(`indexTasks` keys each task by its own id). -/
def entryIdOk (e : String × Option Job) : Bool :=
  match e.2 with
  | some t =>
    match t.id with
    | some i => decide (i = e.1)
    | none => true
  | none => true

/-- Every entry of the registry is id-consistent. -/
def idConsistentB (R : Registry) : Bool := R.all entryIdOk

/-- The service contract of `batchGetQueryExecution`: every identifier the
response mentions (in the payload or the unprocessed list) was requested. -/
def GoodSvc (svc : Svc) : Prop :=
  ∀ ids resp, svc ids = .ok resp →
    (∀ it ∈ resp.queryExecutions, some it.qid ∈ ids) ∧
    (∀ u ∈ resp.unprocessed, some u.qid ∈ ids)

theorem getRunningJobs_ok_wellFormed (R : Registry) (ids : List (Option String))
    (h : getRunningJobs R = .ok ids) : wellFormedB R = true := by
  induction R generalizing ids with
  | nil => rfl
  | cons e t ih =>
    cases e with
    | mk k v =>
      cases v with
      | none => exact absurd h (by simp [getRunningJobs])
      | some j =>
        cases hgr : getRunningJobs t with
        | error e2 =>
          exfalso
          simp only [getRunningJobs, hgr] at h
          exact absurd h (by simp)
        | ok ids2 =>
          simp only [wellFormedB, List.all_cons, Option.isSome_some, Bool.true_and]
          exact ih ids2 hgr

theorem mem_runningIds (R : Registry) (x : Option String) (h : x ∈ runningIds R) :
    ∃ e ∈ R, ∃ t : Job, e.2 = some t ∧ isActive t.status = true ∧ t.id = x := by
  induction R with
  | nil => cases h
  | cons e rest ih =>
    have hr : runningIds (e :: rest)
        = (match e.2 with
           | some j => if isActive j.status then j.id :: runningIds rest else runningIds rest
           | none => runningIds rest) := rfl
    cases hv : e.2 with
    | none =>
      rw [hr, hv] at h
      obtain ⟨e1, he1, t1, ht⟩ := ih h
      exact ⟨e1, List.mem_cons_of_mem e he1, t1, ht⟩
    | some j =>
      rw [hr, hv] at h
      have h' : x ∈ (if isActive j.status = true then j.id :: runningIds rest
          else runningIds rest) := h
      cases hact : isActive j.status with
      | false =>
        rw [hact] at h'
        simp only [Bool.false_eq_true, if_neg, ite_false] at h'
        obtain ⟨e1, he1, t1, ht⟩ := ih h'
        exact ⟨e1, List.mem_cons_of_mem e he1, t1, ht⟩
      | true =>
        rw [hact] at h'
        simp only [if_pos, ite_true] at h'
        rcases List.mem_cons.mp h' with rfl | h2
        · exact ⟨e, List.mem_cons_self e rest, j, hv, hact, rfl⟩
        · obtain ⟨e1, he1, t1, ht⟩ := ih h2
          exact ⟨e1, List.mem_cons_of_mem e he1, t1, ht⟩

theorem terminal_not_in_runningIds (R : Registry) (hnd : (regKeys R).Nodup)
    (hic : idConsistentB R = true) (k : String) (j : Job)
    (hk : getEntry R k = some (some j)) (hterm : isActive j.status = false) :
    some k ∉ runningIds R := by
  intro hmem
  obtain ⟨e, he, t, hv, hact, hid⟩ := mem_runningIds R (some k) hmem
  have hok : entryIdOk e = true := by
    have h2 := hic
    unfold idConsistentB at h2
    rw [List.all_eq_true] at h2
    exact h2 e he
  have he2 : e = (e.1, some t) := by rw [← hv]
  rw [he2] at hok
  simp only [entryIdOk, hid, decide_eq_true_eq] at hok
  have hkey : getEntry R e.1 = some (some t) := by
    have := getEntry_of_mem_nodup R hnd e he
    rw [he2] at this
    exact this
  rw [← hok] at hkey
  rw [hk] at hkey
  have : j = t := by
    have := Option.some.inj hkey
    exact Option.some.inj this
  rw [← this] at hact
  rw [hterm] at hact
  exact absurd hact (by simp)

theorem entryIdOk_preserved (k1 : String) (t : Job) (f : Job → Job)
    (hf : (f t).id = t.id) (h : entryIdOk (k1, some t) = true) :
    entryIdOk (k1, some (f t)) = true := by
  simp only [entryIdOk, hf] at *
  exact h

theorem idConsistentB_updateAt (R : Registry) (k : String) (f : Job → Job)
    (hf : ∀ t, (f t).id = t.id) (h : idConsistentB R = true) :
    idConsistentB (updateAt R k f) = true := by
  unfold idConsistentB at h ⊢
  rw [List.all_eq_true] at h ⊢
  intro e he
  rw [updateAt] at he
  obtain ⟨e0, he0, heq⟩ := List.mem_map.mp he
  by_cases hk : e0.1 = k
  · rw [if_pos hk] at heq
    cases hv : e0.2 with
    | none =>
      rw [hv] at heq
      rw [← heq]
      rfl
    | some t =>
      rw [hv] at heq
      have h0 := h e0 he0
      have h1 : entryIdOk (e0.1, some t) = true := by
        rw [show (e0.1, some t) = e0 by rw [← hv]]
        exact h0
      have h2 := entryIdOk_preserved e0.1 t f (hf t) h1
      rw [← heq]
      exact h2
  · rw [if_neg hk] at heq
    rw [← heq]
    exact h e0 he0

theorem jsLoop_idConsistent {α : Type} (key : α → String) (upd : α → Job → Job)
    (hupd : ∀ x t, (upd x t).id = t.id) (xs : List α) :
    ∀ R R' : Registry,
      (jsLoop key upd R xs = .ok R' ∨ jsLoop key upd R xs = .error R') →
      idConsistentB R = true → idConsistentB R' = true := by
  induction xs with
  | nil =>
    intro R R' h hic
    rcases h with h | h
    · simp only [jsLoop] at h; cases h; exact hic
    · exact absurd h (by simp [jsLoop])
  | cons x rest ih =>
    intro R R' h hic
    have hstep : idConsistentB (updateAt R (key x) (upd x)) = true :=
      idConsistentB_updateAt R (key x) (upd x) (hupd x) hic
    rcases h with h | h <;>
    · unfold jsLoop at h
      cases hge : getEntry R (key x) with
      | none =>
        rw [hge] at h
        first
        | (cases h; exact hic)
        | exact absurd h (by simp)
      | some v =>
        cases v with
        | none =>
          rw [hge] at h
          first
          | (cases h; exact hic)
          | exact absurd h (by simp)
        | some j =>
          rw [hge] at h
          exact ih (updateAt R (key x) (upd x)) R' (by tauto) hstep

/-- One polling cycle, under the service contract, never touches a job
whose status is terminal: its registry entry is bit-for-bit preserved on
every outcome (finish, continue, or fatal — including the partially mutated
registry a thrown cycle leaves behind), and a continuing cycle preserves
the registry invariants. -/
theorem cycle_preserves (R : Registry) (svc : Svc)
    (hnd : (regKeys R).Nodup) (hic : idConsistentB R = true) (hgood : GoodSvc svc)
    (k : String) (j : Job) (hk : getEntry R k = some (some j))
    (hterm : isActive j.status = false) :
    (∀ out, cycleStep R svc = CycleOutcome.finish out → getEntry out k = some (some j)) ∧
    (∀ R2, cycleStep R svc = CycleOutcome.next R2 →
      getEntry R2 k = some (some j) ∧ (regKeys R2).Nodup ∧ idConsistentB R2 = true) ∧
    (∀ Rp, cycleStep R svc = CycleOutcome.fatal Rp → getEntry Rp k = some (some j)) := by
  cases hgr : getRunningJobs R with
  | error e =>
    have hcyc : cycleStep R svc = CycleOutcome.fatal R := by
      simp [cycleStep, monitor, hgr]
    refine ⟨?_, ?_, ?_⟩
    · intro out hout; rw [hcyc] at hout; exact absurd hout (by simp)
    · intro R2 h2; rw [hcyc] at h2; exact absurd h2 (by simp)
    · intro Rp hp
      rw [hcyc] at hp
      rw [← CycleOutcome.fatal.inj hp]
      exact hk
  | ok ids =>
    have hwf := getRunningJobs_ok_wellFormed R ids hgr
    have hids : ids = runningIds R := by
      have h2 := getRunningJobs_eq R hwf
      rw [hgr] at h2
      exact Except.ok.inj h2
    by_cases hempty : ids.length > 0
    · cases hsvc : svc ids with
      | error e =>
        have hcyc : cycleStep R svc = CycleOutcome.fatal R := by
          simp [cycleStep, monitor, hgr, hempty, hsvc]
        refine ⟨?_, ?_, ?_⟩
        · intro out hout; rw [hcyc] at hout; exact absurd hout (by simp)
        · intro R2 h2; rw [hcyc] at h2; exact absurd h2 (by simp)
        · intro Rp hp
          rw [hcyc] at hp
          rw [← CycleOutcome.fatal.inj hp]
          exact hk
      | ok resp =>
        obtain ⟨hmE, hmU⟩ := hgood ids resp hsvc
        have hknotin : some k ∉ ids := by
          rw [hids]
          exact terminal_not_in_runningIds R hnd hic k j hk hterm
        have hkE : ∀ it ∈ resp.queryExecutions, ExecItem.qid it ≠ k := by
          intro it hit hc
          exact hknotin (hc ▸ hmE it hit)
        have hkU : ∀ u ∈ resp.unprocessed, Unproc.qid u ≠ k := by
          intro u hu hc
          exact hknotin (hc ▸ hmU u hu)
        cases hl : applyExecLoop R resp.queryExecutions with
        | error Rp1 =>
          have hcyc : cycleStep R svc = CycleOutcome.fatal Rp1 := by
            simp [cycleStep, monitor, hgr, hempty, hsvc, hl]
          have hpre : getEntry Rp1 k = getEntry R k :=
            jsLoop_notMentioned ExecItem.qid execUpdate resp.queryExecutions k hkE R Rp1
              (Or.inr hl)
          refine ⟨?_, ?_, ?_⟩
          · intro out hout; rw [hcyc] at hout; exact absurd hout (by simp)
          · intro R2 h2; rw [hcyc] at h2; exact absurd h2 (by simp)
          · intro Rp hp
            rw [hcyc] at hp
            rw [← CycleOutcome.fatal.inj hp, hpre]
            exact hk
        | ok R1 =>
          have hpre1 : getEntry R1 k = getEntry R k :=
            jsLoop_notMentioned ExecItem.qid execUpdate resp.queryExecutions k hkE R R1
              (Or.inl hl)
          have hkeys1 : regKeys R1 = regKeys R :=
            jsLoop_regKeys ExecItem.qid execUpdate resp.queryExecutions R R1 (Or.inl hl)
          have hnd1 : (regKeys R1).Nodup := by rw [hkeys1]; exact hnd
          have hic1 : idConsistentB R1 = true :=
            jsLoop_idConsistent ExecItem.qid execUpdate
              (fun it t => (fieldWrite_execUpdate it).hid t) resp.queryExecutions R R1
              (Or.inl hl) hic
          have hcons : consolidateJobs R1 R1 resp.unprocessed
              = applyFailLoop R1 resp.unprocessed := by
            unfold consolidateJobs
            rw [copyLoop_self R1 hnd1]
          cases hf : applyFailLoop R1 resp.unprocessed with
          | error Rp2 =>
            have hcyc : cycleStep R svc = CycleOutcome.fatal Rp2 := by
              simp [cycleStep, monitor, hgr, hempty, hsvc, hl, hcons, hf]
            have hpre2 : getEntry Rp2 k = getEntry R1 k :=
              jsLoop_notMentioned Unproc.qid failUpdate resp.unprocessed k hkU R1 Rp2
                (Or.inr hf)
            refine ⟨?_, ?_, ?_⟩
            · intro out hout; rw [hcyc] at hout; exact absurd hout (by simp)
            · intro R2 h2; rw [hcyc] at h2; exact absurd h2 (by simp)
            · intro Rp hp
              rw [hcyc] at hp
              rw [← CycleOutcome.fatal.inj hp, hpre2, hpre1]
              exact hk
          | ok R2 =>
            have hcyc : cycleStep R svc = CycleOutcome.next R2 := by
              simp [cycleStep, monitor, hgr, hempty, hsvc, hl, hcons, hf]
            have hpre2 : getEntry R2 k = getEntry R1 k :=
              jsLoop_notMentioned Unproc.qid failUpdate resp.unprocessed k hkU R1 R2
                (Or.inl hf)
            have hkeys2 : regKeys R2 = regKeys R1 :=
              jsLoop_regKeys Unproc.qid failUpdate resp.unprocessed R1 R2 (Or.inl hf)
            have hic2 : idConsistentB R2 = true :=
              jsLoop_idConsistent Unproc.qid failUpdate
                (fun u t => (fieldWrite_failUpdate u).hid t) resp.unprocessed R1 R2
                (Or.inl hf) hic1
            refine ⟨?_, ?_, ?_⟩
            · intro out hout; rw [hcyc] at hout; exact absurd hout (by simp)
            · intro R2' h2
              rw [hcyc] at h2
              rw [← CycleOutcome.next.inj h2]
              refine ⟨?_, ?_, hic2⟩
              · rw [hpre2, hpre1]; exact hk
              · rw [hkeys2, hkeys1]; exact hnd
            · intro Rp hp; rw [hcyc] at hp; exact absurd hp (by simp)
    · have hnil : ids = [] := by
        cases ids with
        | nil => rfl
        | cons a t => exact absurd (by simp : (a :: t).length > 0) hempty
      have hcyc : cycleStep R svc = CycleOutcome.finish R := by
        rw [hnil] at hgr
        simp [cycleStep, monitor, hgr]
      refine ⟨?_, ?_, ?_⟩
      · intro out hout
        rw [hcyc] at hout
        rw [← CycleOutcome.finish.inj hout]
        exact hk
      · intro R2 h2; rw [hcyc] at h2; exact absurd h2 (by simp)
      · intro Rp hp; rw [hcyc] at hp; exact absurd hp (by simp)

/-- The state of the main `run` loop across ticks: still polling, finished
(results written, exit 0), or dead after a fatal monitor error (exit 1). -/
inductive RunState
  | active (R : Registry)
  | done (out : Registry)
  | failed (Rp : Registry)
  deriving DecidableEq, Repr

/-- The registry contents in each run state. -/
def regOf : RunState → Registry
  | .active R => R
  | .done out => out
  | .failed Rp => Rp

/-- One interval tick of `run` (src/index.js:289-300); once the process has
exited (done or failed) nothing changes any more. -/
def driveStep : RunState → Svc → RunState
  | .active R, svc =>
    match cycleStep R svc with
    | .finish out => .done out
    | .next R2 => .active R2
    | .fatal Rp => .failed Rp
  | s, _ => s

/-- Run the polling loop over a whole sequence of per-cycle service
responses. -/
def drive (s : RunState) (svcs : List Svc) : RunState := svcs.foldl driveStep s

theorem drive_done (out : Registry) (svcs : List Svc) :
    drive (RunState.done out) svcs = RunState.done out := by
  induction svcs with
  | nil => rfl
  | cons s rest ih => exact ih

theorem drive_failed (Rp : Registry) (svcs : List Svc) :
    drive (RunState.failed Rp) svcs = RunState.failed Rp := by
  induction svcs with
  | nil => rfl
  | cons s rest ih => exact ih

theorem drive_preserves_terminal (svcs : List Svc) :
    ∀ (R : Registry) (k : String) (j : Job),
      (regKeys R).Nodup → idConsistentB R = true → (∀ s ∈ svcs, GoodSvc s) →
      getEntry R k = some (some j) → isActive j.status = false →
      getEntry (regOf (drive (RunState.active R) svcs)) k = some (some j) := by
  induction svcs with
  | nil =>
    intro R k j _ _ _ hk _
    exact hk
  | cons svc rest ih =>
    intro R k j hnd hic hgood hk hterm
    have hmaster := cycle_preserves R svc hnd hic (hgood svc (by simp)) k j hk hterm
    have hgood' : ∀ s ∈ rest, GoodSvc s := fun s hs => hgood s (List.mem_cons_of_mem svc hs)
    show getEntry (regOf (drive (driveStep (RunState.active R) svc) rest)) k = some (some j)
    cases hcyc : cycleStep R svc with
    | finish out =>
      have hds : driveStep (RunState.active R) svc = RunState.done out := by
        simp [driveStep, hcyc]
      rw [hds, drive_done]
      exact hmaster.1 out hcyc
    | next R2 =>
      obtain ⟨hk2, hnd2, hic2⟩ := hmaster.2.1 R2 hcyc
      have hds : driveStep (RunState.active R) svc = RunState.active R2 := by
        simp [driveStep, hcyc]
      rw [hds]
      exact ih R2 k j hnd2 hic2 hgood' hk2 hterm
    | fatal Rp =>
      have hds : driveStep (RunState.active R) svc = RunState.failed Rp := by
        simp [driveStep, hcyc]
      rw [hds, drive_failed]
      exact hmaster.2.2 Rp hcyc

/-- C5: a job that is terminal (SUCCEEDED, FAILED or CANCELLED) before a
poll-and-consolidate cycle is never touched again — after that cycle and
every later cycle (whatever each cycle's outcome, under the service
contract that responses only mention requested identifiers), its registry
entry still holds exactly the same job record, every field included. -/
theorem C5_terminal_frozen (R : Registry) (svcs : List Svc) (k : String) (j : Job)
    (hnd : (regKeys R).Nodup) (hic : idConsistentB R = true)
    (hgood : ∀ s ∈ svcs, GoodSvc s)
    (hk : getEntry R k = some (some j))
    (hterm : j.status = Status.succeeded ∨ j.status = Status.failed ∨
      j.status = Status.cancelled) :
    getEntry (regOf (drive (RunState.active R) svcs)) k = some (some j) := by
  have hterm' : isActive j.status = false := by
    rcases hterm with h | h | h <;> rw [h] <;> rfl
  exact drive_preserves_terminal svcs R k j hnd hic hgood hk hterm'

/-- A terminal (SUCCEEDED) job for the C5 witness. -/
def c5JobA : Job :=
  { name := "a.sql", query := "qa", id := some "a", status := Status.succeeded }

/-- An outstanding (QUEUED) job for the C5 witness. -/
def c5JobB : Job :=
  { name := "b.sql", query := "qb", id := some "b", status := Status.queued }

/-- Registry with one terminal and one outstanding job. -/
def c5Reg : Registry := [("a", some c5JobA), ("b", some c5JobB)]

/-- Poll response completing the outstanding job. -/
def c5Resp : BatchResponse :=
  { queryExecutions := [{ qid := "b", state := Status.succeeded }], unprocessed := [] }

/-- A concrete service oracle obeying the contract: it reports on job "b"
only when job "b" was polled. -/
def svcC5 : Svc := fun ids => if ids = [some "b"] then .ok c5Resp else .ok ⟨[], []⟩

theorem goodSvc_c5 : GoodSvc svcC5 := by
  intro ids resp h
  unfold svcC5 at h
  by_cases hids : ids = [some "b"]
  · rw [if_pos hids] at h
    have hresp : resp = c5Resp := (Except.ok.inj h).symm
    subst hresp
    subst hids
    constructor
    · intro it hit
      simp only [c5Resp, List.mem_singleton] at hit
      subst hit
      decide
    · intro u hu
      exact absurd hu (by simp [c5Resp])
  · rw [if_neg hids] at h
    have hresp : resp = ⟨[], []⟩ := (Except.ok.inj h).symm
    subst hresp
    exact ⟨fun it hit => absurd hit (List.not_mem_nil it),
           fun u hu => absurd hu (List.not_mem_nil u)⟩

/-- C5 witness: after a cycle that completes job "b", the already-terminal
job "a" is untouched. -/
theorem C5_terminal_frozen_witness :
    getEntry (regOf (drive (RunState.active c5Reg) [svcC5])) "a" = some (some c5JobA) :=
  C5_terminal_frozen c5Reg [svcC5] "a" c5JobA (by decide) (by decide)
    (by
      intro s hs
      rw [List.mem_singleton] at hs
      subst hs
      exact goodSvc_c5)
    (by decide) (Or.inl rfl)

/-! ### Finalizer serialization (C9) -/

/-- Structural model of the JSON values `finishUp` writes with
`JSON.stringify` (src/index.js:262). -/
inductive Json
  | null
  | str (s : String)
  | num (n : Nat)
  | arr (xs : List Json)
  | obj (fields : List (String × Json))

/-- The status strings as serialized. -/
def statusToString : Status → String
  | .queued => "QUEUED"
  | .running => "RUNNING"
  | .succeeded => "SUCCEEDED"
  | .failed => "FAILED"
  | .cancelled => "CANCELLED"

/-- Reading a status string back. -/
def statusOfString (s : String) : Option Status :=
  if s = "QUEUED" then some .queued
  else if s = "RUNNING" then some .running
  else if s = "SUCCEEDED" then some .succeeded
  else if s = "FAILED" then some .failed
  else if s = "CANCELLED" then some .cancelled
  else none

/-- `JSON.stringify` on one job object: present fields are emitted in
property order, fields holding `undefined` (like absent fields) are
omitted — never emitted as `null`. -/
def jobToJson (t : Job) : Json :=
  Json.obj
    ([("name", Json.str t.name), ("query", Json.str t.query)]
      ++ (match t.id with | some i => [("id", Json.str i)] | none => [])
      ++ [("status", Json.str (statusToString t.status))]
      ++ (match t.error with | some e => [("error", Json.str e)] | none => [])
      ++ (match t.starttime with | some s => [("starttime", Json.str s)] | none => [])
      ++ (match t.endtime with | some s => [("endtime", Json.str s)] | none => [])
      ++ (match t.runtime with | some n => [("runtime", Json.num n)] | none => [])
      ++ (match t.scanned with | some n => [("scanned", Json.num n)] | none => []))

/-- Looking a field up in a parsed JSON object. -/
def jfield : List (String × Json) → String → Option Json
  | [], _ => none
  | f :: rest, k => if f.1 = k then some f.2 else jfield rest k

def asStr : Option Json → Option String
  | some (.str s) => some s
  | _ => none

def asNum : Option Json → Option Nat
  | some (.num n) => some n
  | _ => none

/-- Parsing one job record back from the document: required fields must be
present, optional fields come back absent when the document omits them. -/
def jsonToJob : Json → Option Job
  | .obj fs =>
    match asStr (jfield fs "name"), asStr (jfield fs "query"),
        asStr (jfield fs "status") with
    | some name, some query, some st =>
      match statusOfString st with
      | some status =>
        some { name := name, query := query, id := asStr (jfield fs "id"),
               status := status, error := asStr (jfield fs "error"),
               starttime := asStr (jfield fs "starttime"),
               endtime := asStr (jfield fs "endtime"),
               runtime := asNum (jfield fs "runtime"),
               scanned := asNum (jfield fs "scanned") }
      | none => none
    | _, _, _ => none
  | _ => none

/-- The document `finishUp` writes (src/index.js:262):
`JSON.stringify(Object.values(jobs))` — an array of the job records; an
`undefined` array element would stringify as `null`. -/
def finishUpDoc (R : Registry) : Json :=
  Json.arr (R.map (fun e => match e.2 with | some t => jobToJson t | none => Json.null))

/-- Parsing a list of job records. -/
def parseJobs : List Json → Option (List Job)
  | [] => some []
  | x :: xs =>
    match jsonToJob x, parseJobs xs with
    | some a, some l => some (a :: l)
    | _, _ => none

/-- Parsing the whole results document back. -/
def parseDoc : Json → Option (List Job)
  | .arr xs => parseJobs xs
  | _ => none

/-- The job records held by the registry (`Object.values`, restricted to
defined values; on a well-formed registry this is every value). -/
def jobValues (R : Registry) : List Job := R.filterMap (fun e => e.2)

set_option maxHeartbeats 3200000 in
theorem jobToJson_roundtrip (t : Job) : jsonToJob (jobToJson t) = some t := by
  obtain ⟨name, query, id, status, error, starttime, endtime, runtime, scanned⟩ := t
  cases id <;> cases error <;> cases starttime <;> cases endtime <;>
    cases runtime <;> cases scanned <;> cases status <;> rfl

/-- C9: parsing the document the Finalizer writes reconstructs exactly the
registry's job records — every present field with the same value, every
absent optional field still absent (nothing is emitted as `null`). -/
theorem C9_roundtrip (R : Registry) :
    wellFormedB R = true → parseDoc (finishUpDoc R) = some (jobValues R) := by
  induction R with
  | nil => intro _; rfl
  | cons e rest ih =>
    intro hwf
    simp only [wellFormedB, List.all_cons, Bool.and_eq_true] at hwf
    obtain ⟨he, hrest⟩ := hwf
    cases e with
    | mk k v =>
      cases v with
      | none => simp at he
      | some j =>
        have hr : parseJobs (rest.map
            (fun e => match e.2 with | some t => jobToJson t | none => Json.null))
            = some (jobValues rest) := ih hrest
        show (match jsonToJob (jobToJson j), parseJobs (rest.map
            (fun e => match e.2 with | some t => jobToJson t | none => Json.null)) with
          | some a, some l => some (a :: l)
          | _, _ => none) = some (jobValues ((k, some j) :: rest))
        rw [jobToJson_roundtrip j, hr]
        rfl

/-- A concrete registry mixing present and absent optional fields. -/
def c9Reg : Registry :=
  [("undefined", some { name := "u1.sql", query := "q1", status := Status.failed,
                        error := some "denied" }),
   ("id-2", some { name := "u2.sql", query := "q2", id := some "id-2",
                   status := Status.succeeded, starttime := some "t0",
                   endtime := some "t1", runtime := some 1200, scanned := some 2048 }),
   ("id-3", some { name := "u3.sql", query := "q3", id := some "id-3",
                   status := Status.running })]

/-- C9 witness: the concrete document round-trips to exactly the registry's
job records. -/
theorem C9_roundtrip_witness : parseDoc (finishUpDoc c9Reg) = some (jobValues c9Reg) :=
  C9_roundtrip c9Reg (by decide)

/-! ### The event loop: timer ticks, the SIGINT handler, cancellation -/

/-- Process phase: polling normally, cancelling after SIGINT (stop requests
issued, `Promise.all` pending), exited with a code, or crashed on an
uncaught exception. -/
inductive Phase
  | normal
  | cancelling
  | exited (code : Nat)
  | crashed
  deriving DecidableEq, Repr

/-- The process state: the task dictionary (`jobIndex`, which `INDEX`
aliases once assigned at src/index.js:294), whether `INDEX` has been
assigned, whether the `asyncinterval` timer is still armed (nothing in the
program ever clears it), the phase, the cancellation requests issued by the
SIGINT handler, and the results document written by `finishUp`. -/
structure Sys where
  reg : Registry
  indexSet : Bool
  timerActive : Bool
  phase : Phase
  cancelsIssued : Option (List (Option String))
  written : Option Registry
  deriving DecidableEq, Repr

/-- Events the event loop can process: a timer tick (carrying the batched
call's result for that cycle), the SIGINT signal, and the settling of all
cancellation requests (carrying their individual outcomes). -/
inductive Ev
  | tick (resp : Except String BatchResponse)
  | sigint
  | cancelsDone (outcomes : List Bool)

/-- Whether the process is still running callbacks. -/
def phaseLive : Phase → Bool
  | .normal => true
  | .cancelling => true
  | _ => false

/-- `getRunningJobs(INDEX)` as the SIGINT handler calls it
(src/index.js:331): `INDEX` may still be `undefined`, in which case
`Object.keys(undefined)` throws a TypeError. -/
def getRunningJobsJS (idx : Option Registry) : Except String (List (Option String)) :=
  match idx with
  | none => .error "TypeError"
  | some R => getRunningJobs R

/-- One event-loop step.  A tick (src/index.js:289-300) runs a full cycle
whenever the timer is armed and the process is live — the SIGINT handler
(src/index.js:324-343) never clears the timer, it only collects the
running ids from `INDEX` and issues the stop requests (crashing if `INDEX`
is still `undefined`); when all stop requests settle, `finishUp(INDEX)`
writes the current registry and exits 0 regardless of the outcomes. -/
def step (s : Sys) (e : Ev) : Sys :=
  match e with
  | .tick resp =>
    if s.timerActive && phaseLive s.phase then
      match cycleStep s.reg (fun _ => resp) with
      | .finish out => { s with written := some out, phase := .exited 0 }
      | .next R2 => { s with reg := R2, indexSet := true }
      | .fatal Rp => { s with reg := Rp, phase := .exited 1 }
    else s
  | .sigint =>
    if phaseLive s.phase then
      match getRunningJobsJS (if s.indexSet then some s.reg else none) with
      | .ok ids => { s with cancelsIssued := some ids, phase := .cancelling }
      | .error _ => { s with phase := .crashed }
    else s
  | .cancelsDone _ =>
    if s.phase = Phase.cancelling then
      { s with written := some s.reg, phase := .exited 0 }
    else s

/-- A live process mid-run: one RUNNING job, first cycle already
consolidated (`INDEX` assigned), timer armed. -/
def w0Sys : Sys :=
  { reg := [("q1", some { name := "a.sql", query := "qa", id := some "q1",
                          status := Status.running })],
    indexSet := true, timerActive := true, phase := .normal,
    cancelsIssued := none, written := none }

/-- A poll response completing that job. -/
def wResp : Except String BatchResponse :=
  .ok { queryExecutions := [{ qid := "q1", state := Status.succeeded,
                              submissionDateTime := some "t0",
                              completionDateTime := some "t1",
                              engineExecutionTimeInMillis := some 5,
                              dataScannedInBytes := some 9 }],
        unprocessed := [] }

/-- The job record after that cycle. -/
def wJobAfter : Job :=
  { name := "a.sql", query := "qa", id := some "q1", status := Status.succeeded,
    starttime := some "t0", endtime := some "t1", runtime := some 5, scanned := some 9 }

/-- C3 (counterexample): the interrupt is handled (the handler runs, the
phase becomes cancelling), yet the next timer tick still executes a full
polling cycle — the registry changes, the RUNNING job is consolidated to
SUCCEEDED.  The normal polling path does run again between the interrupt
and process termination. -/
theorem C3_counterexample :
    (step w0Sys Ev.sigint).phase = Phase.cancelling ∧
    (step (step w0Sys Ev.sigint) (Ev.tick wResp)).reg ≠ (step w0Sys Ev.sigint).reg ∧
    getEntry (step (step w0Sys Ev.sigint) (Ev.tick wResp)).reg "q1"
      = some (some wJobAfter) := by
  refine ⟨?_, ?_, ?_⟩ <;> decide

/-- C3 (amended): the Cancellation Handler does not stop the polling timer
— no event-loop step ever clears `timerActive` — and after the interrupt
(phase cancelling) an armed timer tick still executes a full polling cycle
exactly as before; only process exit (or crash) stops the polling path,
because callbacks then no longer run. -/
theorem C3_amended (s : Sys) :
    (∀ e, (step s e).timerActive = s.timerActive) ∧
    (∀ r, s.timerActive = true → phaseLive s.phase = true →
      step s (Ev.tick r)
        = (match cycleStep s.reg (fun _ => r) with
           | CycleOutcome.finish out => { s with written := some out, phase := Phase.exited 0 }
           | CycleOutcome.next R2 => { s with reg := R2, indexSet := true }
           | CycleOutcome.fatal Rp => { s with reg := Rp, phase := Phase.exited 1 })) ∧
    (∀ c, s.phase = Phase.exited c → ∀ e, step s e = s) := by
  refine ⟨?_, ?_, ?_⟩
  · intro e
    cases e with
    | tick resp =>
      simp only [step]
      split
      · split <;> rfl
      · rfl
    | sigint =>
      simp only [step]
      split
      · split <;> rfl
      · rfl
    | cancelsDone o =>
      simp only [step]
      split <;> rfl
  · intro r h1 h2
    simp only [step]
    rw [if_pos (by rw [h1, h2]; rfl)]
  · intro c hc e
    cases e with
    | tick resp => simp [step, hc, phaseLive]
    | sigint => simp [step, hc, phaseLive]
    | cancelsDone o => simp [step, hc]

/-- C3 amended, witnessed: in the concrete post-interrupt state the next
tick still runs the cycle. -/
theorem C3_amended_witness :
    step (step w0Sys Ev.sigint) (Ev.tick wResp)
      = (match cycleStep (step w0Sys Ev.sigint).reg (fun _ => wResp) with
         | CycleOutcome.finish out =>
           { (step w0Sys Ev.sigint) with written := some out, phase := Phase.exited 0 }
         | CycleOutcome.next R2 =>
           { (step w0Sys Ev.sigint) with reg := R2, indexSet := true }
         | CycleOutcome.fatal Rp =>
           { (step w0Sys Ev.sigint) with reg := Rp, phase := Phase.exited 1 }) :=
  (C3_amended (step w0Sys Ev.sigint)).2.1 wResp (by decide) (by decide)

/-- C8 (amended): when the interrupt fires on a live process with the
snapshot set, the handler issues exactly one cancellation request per
currently QUEUED/RUNNING job id, mutates no job (in particular no status is
set to CANCELLED), and once every cancellation request has resolved — with
outcomes it never inspects — `finishUp` writes the registry and the process
exits 0 regardless; the written statuses are the pre-interrupt ones
provided no polling cycle runs between the interrupt and finalization. -/
theorem C8_amended (s : Sys) (ids : List (Option String))
    (hphase : s.phase = Phase.normal) (hidx : s.indexSet = true)
    (hids : getRunningJobs s.reg = .ok ids) :
    (step s Ev.sigint).cancelsIssued = some ids ∧
    (step s Ev.sigint).reg = s.reg ∧
    (step s Ev.sigint).written = s.written ∧
    (step s Ev.sigint).phase = Phase.cancelling ∧
    (∀ o o', step (step s Ev.sigint) (Ev.cancelsDone o)
        = step (step s Ev.sigint) (Ev.cancelsDone o')) ∧
    (∀ o, (step (step s Ev.sigint) (Ev.cancelsDone o)).phase = Phase.exited 0 ∧
      (step (step s Ev.sigint) (Ev.cancelsDone o)).written = some s.reg) := by
  have hs1 : step s Ev.sigint
      = { s with cancelsIssued := some ids, phase := Phase.cancelling } := by
    simp [step, phaseLive, hphase, hidx, getRunningJobsJS, hids]
  refine ⟨?_, ?_, ?_, ?_, ?_, ?_⟩
  · rw [hs1]
  · rw [hs1]
  · rw [hs1]
  · rw [hs1]
  · intro o o'
    rfl
  · intro o
    rw [hs1]
    constructor <;> simp [step]

/-- C8 amended, witnessed: in the concrete mid-run state the handler
collects the single running id, and finalization after the cancels writes
the pre-interrupt registry with exit 0. -/
theorem C8_amended_witness :
    (step w0Sys Ev.sigint).cancelsIssued = some [some "q1"] ∧
    (step (step w0Sys Ev.sigint) (Ev.cancelsDone [false, true])).written
      = some w0Sys.reg :=
  ⟨(C8_amended w0Sys [some "q1"] rfl rfl rfl).1,
   ((C8_amended w0Sys [some "q1"] rfl rfl rfl).2.2.2.2.2 [false, true]).2⟩

/-- C8 (counterexample): the timer is still armed while the cancellation
requests are pending, so a polling cycle can run between the interrupt and
finalization; in that interleaving the written document does not retain the
pre-interrupt statuses — the RUNNING job is written as SUCCEEDED. -/
theorem C8_counterexample :
    (step (step (step w0Sys Ev.sigint) (Ev.tick wResp)) (Ev.cancelsDone [])).phase
        = Phase.exited 0 ∧
    (step (step (step w0Sys Ev.sigint) (Ev.tick wResp)) (Ev.cancelsDone [])).written
        ≠ some w0Sys.reg ∧
    (step (step (step w0Sys Ev.sigint) (Ev.tick wResp)) (Ev.cancelsDone [])).written
        = some [("q1", some wJobAfter)] := by
  refine ⟨?_, ?_, ?_⟩ <;> decide

/-- C10: if the interrupt fires while the shared snapshot `INDEX` is still
unassigned (no cycle has completed consolidation yet), the handler's
`getRunningJobs(INDEX)` throws a TypeError: the process crashes without
issuing any cancellation request or writing any results document; and the
only step that ever sets the snapshot is a tick whose cycle consolidates
(`CycleOutcome.next`). -/
theorem C10_sigint_before_first_cycle (s : Sys)
    (hphase : phaseLive s.phase = true) (hidx : s.indexSet = false) :
    getRunningJobsJS none = Except.error "TypeError" ∧
    (step s Ev.sigint).phase = Phase.crashed ∧
    (step s Ev.sigint).cancelsIssued = s.cancelsIssued ∧
    (step s Ev.sigint).written = s.written ∧
    (step s Ev.sigint).reg = s.reg ∧
    (∀ e, (step s e).indexSet = true →
      ∃ r R2, e = Ev.tick r ∧ cycleStep s.reg (fun _ => r) = CycleOutcome.next R2) := by
  have hs1 : step s Ev.sigint = { s with phase := Phase.crashed } := by
    simp [step, hphase, hidx, getRunningJobsJS]
  refine ⟨rfl, ?_, ?_, ?_, ?_, ?_⟩
  · rw [hs1]
  · rw [hs1]
  · rw [hs1]
  · rw [hs1]
  · intro e he
    cases e with
    | tick r =>
      cases hcyc : cycleStep s.reg (fun _ => r) with
      | finish out =>
        exfalso
        have hstep : (step s (Ev.tick r)).indexSet = s.indexSet := by
          simp only [step]
          split
          · rw [hcyc]
          · rfl
        rw [hstep, hidx] at he
        exact absurd he (by simp)
      | next R2 => exact ⟨r, R2, rfl, hcyc⟩
      | fatal Rp =>
        exfalso
        have hstep : (step s (Ev.tick r)).indexSet = s.indexSet := by
          simp only [step]
          split
          · rw [hcyc]
          · rfl
        rw [hstep, hidx] at he
        exact absurd he (by simp)
    | sigint =>
      exfalso
      rw [hs1] at he
      simp [hidx] at he
    | cancelsDone o =>
      exfalso
      have hstep : (step s (Ev.cancelsDone o)).indexSet = s.indexSet := by
        simp only [step]
        split <;> rfl
      rw [hstep, hidx] at he
      exact absurd he (by simp)

/-- A live process before any successful cycle: `INDEX` still undefined. -/
def w10Sys : Sys :=
  { reg := [("q1", some { name := "a.sql", query := "qa", id := some "q1",
                          status := Status.queued })],
    indexSet := false, timerActive := true, phase := .normal,
    cancelsIssued := none, written := none }

/-- C10 witness: the early interrupt crashes the handler, with no
cancellation issued and nothing written. -/
theorem C10_sigint_before_first_cycle_witness :
    (step w10Sys Ev.sigint).phase = Phase.crashed ∧
    (step w10Sys Ev.sigint).cancelsIssued = none ∧
    (step w10Sys Ev.sigint).written = none :=
  ⟨(C10_sigint_before_first_cycle w10Sys rfl rfl).2.1,
   (C10_sigint_before_first_cycle w10Sys rfl rfl).2.2.1,
   (C10_sigint_before_first_cycle w10Sys rfl rfl).2.2.2.1⟩
